import Mathlib

/-!
Shallow embedding of the `python-fakturoid` client library
(`fakturoid/models.py`, `fakturoid/api.py`, `fakturoid/paging.py`).

Python values appearing in model field dictionaries are embedded as `PyVal`.
`datetime.date` / `datetime.datetime` objects are embedded as explicit
year/month/day(/time) records; `decimal.Decimal` as sign + digit lists.
`dateutil.parser.parse` and the `Decimal` constructor are third-party
functions; they are modelled restricted to the fixed-width ISO-8601 forms,
respectively the plain fixed-point numeral forms, that this library itself
emits and that the Fakturoid JSON API exchanges (spec section 6).
Exceptions raised by them are modelled as `Option.none` results.
-/

namespace Fakturoid

/-! ### Decimal digits and fixed-width numerals -/

def digitChar (n : Nat) : Char := Char.ofNat (48 + n)

/-- The numeric value of an ASCII digit character (`Char.isDigit` spelled
out over `Char.toNat` so that proofs can reason with `omega`). -/
def charVal (c : Char) : Option Nat :=
  if 48 ≤ c.toNat ∧ c.toNat ≤ 57 then some (c.toNat - 48) else none

/-- Two-digit zero-padded numeral, as `datetime.isoformat` prints months,
days, hours, minutes and seconds. -/
def pad2 (n : Nat) : List Char := [digitChar (n / 10), digitChar (n % 10)]

/-- Four-digit zero-padded numeral, as `datetime.isoformat` prints years. -/
def pad4 (n : Nat) : List Char :=
  [digitChar (n / 1000), digitChar (n / 100 % 10), digitChar (n / 10 % 10), digitChar (n % 10)]

def read2 (a b : Char) : Option Nat := do
  let x ← charVal a
  let y ← charVal b
  pure (10 * x + y)

def read4 (a b c d : Char) : Option Nat := do
  let hi ← read2 a b
  let lo ← read2 c d
  pure (100 * hi + lo)

/-! ### Dates and datetimes (embedding of `datetime.date` / `datetime.datetime`) -/

structure PyDate where
  year : Nat
  month : Nat
  day : Nat
deriving DecidableEq, Repr

structure PyDateTime where
  year : Nat
  month : Nat
  day : Nat
  hour : Nat
  minute : Nat
  second : Nat
deriving DecidableEq, Repr

/-- `datetime.date()` — drop the time-of-day part. -/
def PyDateTime.toDate (t : PyDateTime) : PyDate := ⟨t.year, t.month, t.day⟩

def midnightOf (d : PyDate) : PyDateTime := ⟨d.year, d.month, d.day, 0, 0, 0⟩

def isoDateChars (d : PyDate) : List Char :=
  pad4 d.year ++ '-' :: pad2 d.month ++ '-' :: pad2 d.day

/-- `date.isoformat()`: `YYYY-MM-DD`. -/
def isoDate (d : PyDate) : String := String.mk (isoDateChars d)

def isoDateTimeChars (t : PyDateTime) : List Char :=
  pad4 t.year ++ '-' :: pad2 t.month ++ '-' :: pad2 t.day ++
    'T' :: pad2 t.hour ++ ':' :: pad2 t.minute ++ ':' :: pad2 t.second

/-- `datetime.isoformat()` for a microsecond-free, timezone-naive value:
`YYYY-MM-DDTHH:MM:SS`.  Microseconds and timezone offsets are outside the
modelled fragment. -/
def isoDateTime (t : PyDateTime) : String := String.mk (isoDateTimeChars t)

/-- Range validation performed when building a `datetime`; `dateutil`
rejects out-of-range components with a `ValueError`.  (Day validity is
approximated by `day ≤ 31`.) -/
def mkDateTime (y mo d h mi s : Nat) : Option PyDateTime :=
  if 1 ≤ y ∧ y ≤ 9999 ∧ 1 ≤ mo ∧ mo ≤ 12 ∧ 1 ≤ d ∧ d ≤ 31 ∧ h ≤ 23 ∧ mi ≤ 59 ∧ s ≤ 59 then
    some ⟨y, mo, d, h, mi, s⟩
  else
    none

/-- `dateutil.parser.parse`, restricted to the fixed-width ISO-8601 forms
`YYYY-MM-DD` (parsed to midnight of that day) and `YYYY-MM-DDTHH:MM:SS`.
Other of dateutil's accepted input formats are outside the modelled
fragment; a parse failure (Python `ValueError`) is `none`. -/
def parseDateTimeChars : List Char → Option PyDateTime
  | [y1, y2, y3, y4, s1, m1, m2, s2, d1, d2] =>
    if s1 = '-' ∧ s2 = '-' then do
      let y ← read4 y1 y2 y3 y4
      let mo ← read2 m1 m2
      let d ← read2 d1 d2
      mkDateTime y mo d 0 0 0
    else none
  | [y1, y2, y3, y4, s1, m1, m2, s2, d1, d2, s3, h1, h2, s4, i1, i2, s5, c1, c2] =>
    if s1 = '-' ∧ s2 = '-' ∧ s3 = 'T' ∧ s4 = ':' ∧ s5 = ':' then do
      let y ← read4 y1 y2 y3 y4
      let mo ← read2 m1 m2
      let d ← read2 d1 d2
      let h ← read2 h1 h2
      let mi ← read2 i1 i2
      let s ← read2 c1 c2
      mkDateTime y mo d h mi s
    else none
  | _ => none

def pyParse (s : String) : Option PyDateTime := parseDateTimeChars s.toList

/-! ### Decimals (embedding of `decimal.Decimal`) -/

/-- `decimal.Decimal`, restricted to the plain fixed-point fragment that
`str(Decimal)` prints without exponent notation: a sign, integer-part
digits and fractional digits (trailing fractional zeros are significant
and preserved, exactly as `Decimal` does). -/
structure PyDecimal where
  neg : Bool
  ip : List Nat
  fp : List Nat
deriving DecidableEq, Repr

def decimalOne : PyDecimal := ⟨false, [1], []⟩

def digitsOf : List Char → Option (List Nat)
  | [] => some []
  | c :: cs => do
    let d ← charVal c
    let ds ← digitsOf cs
    pure (d :: ds)

def digitsChars (ds : List Nat) : List Char := ds.map digitChar

/-- Leading zeros of the integer part are dropped by `Decimal` (an empty
integer part denotes zero). -/
def normIp (ds : List Nat) : List Nat :=
  match ds.dropWhile (· = 0) with
  | [] => [0]
  | l => l

def splitSign : List Char → Bool × List Char
  | [] => (false, [])
  | c :: rest =>
    if c = '-' then (true, rest)
    else if c = '+' then (false, rest)
    else (false, c :: rest)

/-- Split at the first decimal point; a second point is invalid. -/
def splitDot : List Char → Option (List Char × List Char)
  | [] => some ([], [])
  | c :: cs =>
    if c = '.' then
      if cs.contains '.' then none else some ([], cs)
    else
      match splitDot cs with
      | some (ip, fp) => some (c :: ip, fp)
      | none => none

/-- The `Decimal(string)` constructor on plain fixed-point numerals
(optional sign, digits, optional point and digits); an invalid literal
(Python `InvalidOperation`) is `none`.  Exponent notation, `NaN`,
infinities and surrounding whitespace are outside the modelled fragment. -/
def parseDecimal (s : String) : Option PyDecimal :=
  let sp := splitSign s.toList
  match splitDot sp.2 with
  | none => none
  | some (ipCs, fpCs) =>
    if ipCs.isEmpty ∧ fpCs.isEmpty then none
    else do
      let ipDs ← digitsOf ipCs
      let fpDs ← digitsOf fpCs
      pure ⟨sp.1, normIp ipDs, fpDs⟩

def decChars (d : PyDecimal) : List Char :=
  (if d.neg then ['-'] else []) ++ digitsChars d.ip ++
    (if d.fp.isEmpty then [] else '.' :: digitsChars d.fp)

/-- `str(Decimal)` on the fixed-point fragment. -/
def decString (d : PyDecimal) : String := String.mk (decChars d)

/-! ### Python values -/

/-- Python values that can populate a model field dictionary.  JSON-shaped
data (strings, numbers, booleans, null, arrays, objects) plus the coerced
types (`Decimal`, `date`, `datetime`). -/
inductive PyVal where
  | str (s : String)
  | int (n : Int)
  | bool (b : Bool)
  | none
  | dec (d : PyDecimal)
  | date (d : PyDate)
  | dtime (t : PyDateTime)
  | list (xs : List PyVal)
  | dict (kvs : List (String × PyVal))

abbrev Dict := List (String × PyVal)

/-- Trailing fractional zeros do not affect the numeric value of a
`Decimal`. -/
def fpTrim (fp : List Nat) : List Nat := (fp.reverse.dropWhile (· = 0)).reverse

def PyDecimal.isZero (d : PyDecimal) : Bool := d.ip.all (· = 0) && d.fp.all (· = 0)

/-- Numeric `Decimal` equality on the fixed-point fragment: equal sign and
digits up to trailing fractional zeros, with `0 == -0`. -/
def decEq (a b : PyDecimal) : Bool :=
  (a.isZero && b.isZero) ||
    (a.neg == b.neg && a.ip == b.ip && fpTrim a.fp == fpTrim b.fp)

mutual

/-- Python `==` on the embedded values.  Exact on strings, ints, booleans
(`1 == True`), `None`, dates, datetimes and decimals; lists and dicts
compare element-wise.  Cross-type numeric equality between ints and
`Decimal` is outside the modelled fragment (no claim exercises it). -/
def pyEq : PyVal → PyVal → Bool
  | .str a, .str b => a == b
  | .int a, .int b => a == b
  | .bool a, .bool b => a == b
  | .int a, .bool b => a == (cond b 1 0 : Int)
  | .bool a, .int b => (cond a 1 0 : Int) == b
  | .none, .none => true
  | .dec a, .dec b => decEq a b
  | .date a, .date b => a == b
  | .dtime a, .dtime b => a == b
  | .list a, .list b => pyEqList a b
  | .dict a, .dict b => pyEqDict a b
  | _, _ => false

def pyEqList : List PyVal → List PyVal → Bool
  | [], [] => true
  | a :: as, b :: bs => pyEq a b && pyEqList as bs
  | _, _ => false

def pyEqDict : List (String × PyVal) → List (String × PyVal) → Bool
  | [], [] => true
  | (ka, va) :: as, (kb, vb) :: bs => ka == kb && pyEq va vb && pyEqDict as bs
  | _, _ => false

end

/-- Python `x in xs` on a list. -/
def pyElem (x : PyVal) (xs : List PyVal) : Bool := xs.any (fun y => pyEq y x)

/-- Python truthiness of the embedded values. -/
def pyTruthy : PyVal → Bool
  | .str s => !s.toList.isEmpty
  | .int n => n != 0
  | .bool b => b
  | .none => false
  | .dec d => !(d.ip.all (· = 0) && d.fp.all (· = 0))
  | .date _ => true
  | .dtime _ => true
  | .list xs => !xs.isEmpty
  | .dict kvs => !kvs.isEmpty

/-- Python `isinstance(v, int)` (booleans are ints in Python). -/
def pyIsInt : PyVal → Bool
  | .int _ => true
  | .bool _ => true
  | _ => false

/-- Python `isinstance(v, (datetime, date))`. -/
def pyIsDateLike : PyVal → Bool
  | .date _ => true
  | .dtime _ => true
  | _ => false

/-- `str(v)` as used to format ids into endpoint URLs. -/
def pyIdStr : PyVal → String
  | .int n => toString n
  | .bool b => cond b "True" "False"
  | .str s => s
  | _ => ""

/-- `v.isoformat()` for date-like values. -/
def pyIso : PyVal → String
  | .date d => isoDate d
  | .dtime t => isoDateTime t
  | _ => ""

/-- Python `dict.__setitem__`: overwrite in place, or append a new key. -/
def dictSet (d : Dict) (k : String) (v : PyVal) : Dict :=
  if d.any (fun kv => kv.1 = k) then
    d.map (fun kv => if kv.1 = k then (k, v) else kv)
  else
    d ++ [(k, v)]

/-- Python `dict.update`. -/
def dictMerge (d : Dict) (new : Dict) : Dict :=
  new.foldl (fun acc kv => dictSet acc kv.1 kv.2) d

/-! ### `Model` — `fakturoid/models.py` -/

/-- The class-level `Meta` configuration of a model: the optional
`readonly` field list and the `decimal` field list. -/
structure Meta where
  readonly : Option (List String)
  decimal : List String
deriving DecidableEq, Repr

def accountMeta : Meta := ⟨Option.none, []⟩

def bankAccountMeta : Meta := ⟨Option.none, []⟩

def subjectMeta : Meta :=
  ⟨some ["id", "user_id", "unreliable", "unreliable_checked_at", "html_url", "url",
    "created_at", "updated_at"], []⟩

def invoiceLineMeta : Meta :=
  ⟨some ["id", "unit_price_without_vat", "unit_price_with_vat", "total_price_without_vat",
    "total_vat", "native_total_price_without_vat", "native_total_vat", "inventory"],
   ["quantity", "unit_price"]⟩

def invoiceMeta : Meta :=
  ⟨some ["id", "your_name", "your_street", "your_city", "your_zip", "your_country",
    "your_registration_no", "your_vat_no", "your_local_vat_no", "generator_id",
    "token", "status", "due_on", "sent_at", "paid_at", "reminder_sent_at",
    "canceled_at", "uncollectible_at", "locked_at", "webinvoice_seen_on",
    "subtotal", "total", "native_subtotal", "native_total",
    "remaining_amount", "remaining_native_amount", "eet_records", "vat_rates_summary",
    "paid_advances", "payments", "html_url", "public_html_url", "url", "pdf_url",
    "updated_at", "subject_url", "created_at", "updated_at"],
   ["exchange_rate", "subtotal", "total", "native_subtotal", "native_total",
    "remaining_amount", "remaining_native_amount"]⟩

def expenseMeta : Meta :=
  ⟨some ["id", "supplier_name", "supplier_street", "supplier_city",
    "supplier_zip", "supplier_country", "supplier_registration_no",
    "supplier_vat_no", "supplier_local_vat_no", "status", "paid_on", "locked_at",
    "subtotal", "total", "native_subtotal", "native_total", "vat_rates_summary", "payments",
    "html_url", "url", "subject_url", "created_at", "updated_at"],
   ["exchange_rate", "subtotal", "total", "native_subtotal", "native_total"]⟩

def generatorMeta : Meta :=
  ⟨some ["id", "legacy_bank_details", "subtotal", "total", "native_subtotal", "native_total",
    "html_url", "url", "subject_url", "created_at", "updated_at"],
   ["exchange_rate", "subtotal", "total", "native_subtotal", "native_total"]⟩

def invoiceMessageMeta : Meta := ⟨Option.none, []⟩

/-- Python `str.endswith`, computed on the character lists (the builtin
`String.endsWith` does not reduce well in the kernel). -/
def strEndsWith (s p : String) : Bool := p.toList.isSuffixOf s.toList

/-- Python `str.startswith`, computed on the character lists. -/
def strStartsWith (s p : String) : Bool := p.toList.isPrefixOf s.toList

/-- Body of the per-field loop of `Model.update`: a truthy string value is
coerced by field-name suffix (`_at` → `parse(value)`, `_on`/`_due`/`_date`
→ `parse(value).date()`, names listed in `Meta.decimal` →
`Decimal(value)`); everything else is left unchanged.  A raised parse
error is `none`. -/
def coerceField (meta : Meta) (field : String) (v : PyVal) : Option PyVal :=
  match v with
  | .str s =>
    if pyTruthy (.str s) then
      if strEndsWith field "_at" then
        (pyParse s).map .dtime
      else if strEndsWith field "_on" || strEndsWith field "_due" || strEndsWith field "_date" then
        (pyParse s).map (fun t => .date t.toDate)
      else if meta.decimal.contains field then
        (parseDecimal s).map .dec
      else some v
    else some v
  | _ => some v

/-- The coercion loop of `Model.update` over the caller's `fields`
dictionary (which Python mutates in place; the result is the mutated
dictionary). -/
def coerceFields (meta : Meta) : Dict → Option Dict
  | [] => some []
  | kv :: rest => do
    let v ← coerceField meta kv.1 kv.2
    let tl ← coerceFields meta rest
    pure ((kv.1, v) :: tl)

/-- `Model.update(fields)`: coerce `fields` in place, then
`self.__dict__.update(fields)`.  Returns the new `__dict__` together with
the mutated caller dictionary. -/
def modelUpdate (meta : Meta) (selfDict : Dict) (fields : Dict) : Option (Dict × Dict) :=
  (coerceFields meta fields).map (fun cf => (dictMerge selfDict cf, cf))

/-- `Model(**fields)` — `__init__` delegates to `update` on an empty
instance dictionary. -/
def modelInit (meta : Meta) (fields : Dict) : Option Dict :=
  (modelUpdate meta [] fields).map (fun p => p.1)

/-- `Model.is_field_writable(field, value)`: `field not in Meta.readonly`
when the class declares `readonly`, else `True` (the `value` argument is
unused, as in the source). -/
def modelIsFieldWritable (meta : Meta) (field : String) (_value : PyVal) : Bool :=
  match meta.readonly with
  | some ro => !(ro.contains field)
  | Option.none => true

mutual

/-- `Model.serialize_field_value`: nested lists are serialized item-wise
(under `'{field}.{i}'` names), `Decimal` to its string form, objects with
`isoformat` (dates, datetimes) to their ISO strings, everything else
unchanged.  (Nested `Model` values are out of the embedded value
universe; invoice lines, the one place the library itself nests models,
are handled separately below.) -/
def serializeFieldValue (field : String) (v : PyVal) : PyVal :=
  match v with
  | .list xs => .list (serializeValues field 0 xs)
  | .dec d => .str (decString d)
  | .date d => .str (isoDate d)
  | .dtime t => .str (isoDateTime t)
  | x => x

def serializeValues (field : String) (i : Nat) : List PyVal → List PyVal
  | [] => []
  | x :: xs => serializeFieldValue (field ++ "." ++ toString i) x :: serializeValues field (i + 1) xs

end

/-- `Model.get_fields()`: serialize every writable entry of `__dict__`,
in insertion order. -/
def modelGetFields (meta : Meta) (d : Dict) : Dict :=
  d.filterMap (fun kv =>
    if modelIsFieldWritable meta kv.1 kv.2 then some (kv.1, serializeFieldValue kv.1 kv.2)
    else Option.none)

/-! ### `AbstractInvoice` (`Invoice`, `Expense`, `Generator`) -/

/-- Instance state of an invoice-like model constructed from server JSON
that contained a `lines` key: `AbstractInvoice.update` assigns
`self.lines` (child `InvoiceLine` objects, each embedded by its instance
dictionary) and `self._loaded_lines` (the raw server dictionaries that
carried an `id`) before merging the remaining fields, so `__dict__`
iterates in that order. -/
structure InvoiceState where
  lines : List Dict
  loadedLines : List Dict
  fields : Dict

/-- Python `d.get(k)` (with default `None`). -/
def pyDictGet (d : Dict) (k : String) : PyVal := (d.lookup k).getD .none

/-- Python `k in d` on a dict. -/
def pyDictHas (d : Dict) (k : String) : Bool := d.any (fun kv => kv.1 = k)

/-- `InvoiceLine(**line)`: the constructor presets `quantity = Decimal(1)`
and then runs `Model.update` with `InvoiceLine.Meta`. -/
def invoiceLineInit (fields : Dict) : Option Dict :=
  (modelUpdate invoiceLineMeta [("quantity", .dec decimalOne)] fields).map (fun p => p.1)

/-- The `lines` branch of `AbstractInvoice.update` for lines arriving as
raw server dictionaries (the claims' setting; inputs that are already
`InvoiceLine` objects bypass the `_loaded_lines` bookkeeping in the
source): each dictionary carrying an `id` is remembered in
`_loaded_lines`, and every dictionary is turned into an `InvoiceLine`
appended to `lines`. -/
def invoiceUpdateLines (raws : List Dict) : Option (List Dict × List Dict) :=
  raws.foldlM
    (fun (acc : List Dict × List Dict) raw => do
      let loaded := if pyDictHas raw "id" then acc.2 ++ [raw] else acc.2
      let line ← invoiceLineInit raw
      pure (acc.1 ++ [line], loaded))
    ([], [])

/-- `AbstractInvoice.serialize_field_value` on the `lines` field: the live
lines are serialized through `InvoiceLine.get_fields`, then every
`_loaded_lines` entry whose `id` is not among the `l.get('id')` values of
the serialized dictionaries is appended with `'_destroy': True` set.  The
`ids` map is modelled as realized once (Python 2 semantics); Python 3's
one-shot `map` iterator can only let the membership test reject fewer
remotes, and on the inputs considered below the two semantics coincide. -/
def invoiceSerializeLines (lines loadedLines : List Dict) : List PyVal :=
  let serialized : List Dict := lines.map (modelGetFields invoiceLineMeta)
  let ids : List PyVal := serialized.map (fun d => pyDictGet d "id")
  serialized.map PyVal.dict ++
    ((loadedLines.filter (fun r => !(pyElem (pyDictGet r "id") ids))).map
      (fun r => PyVal.dict (dictSet r "_destroy" (.bool true))))

/-- `AbstractInvoice.is_field_writable`: fields named `your_*` or
`client_*` are never writable; otherwise defer to `Model`. -/
def invoiceIsFieldWritable (meta : Meta) (field : String) (value : PyVal) : Bool :=
  if strStartsWith field "your_" || strStartsWith field "client_" then false
  else modelIsFieldWritable meta field value

/-- `get_fields` of an invoice-like model: `Model.get_fields` over
`__dict__` (in the order described at `InvoiceState`) using the overridden
`is_field_writable` and the overridden `serialize_field_value`, which acts
specially only on the field named `lines`.  The `_loaded_lines` entry is a
plain list of dictionaries, which base serialization leaves unchanged. -/
def invoiceGetFields (meta : Meta) (s : InvoiceState) : Dict :=
  (if invoiceIsFieldWritable meta "lines" (.list []) then
    [("lines", PyVal.list (invoiceSerializeLines s.lines s.loadedLines))]
  else []) ++
  (if invoiceIsFieldWritable meta "_loaded_lines" (.list []) then
    [("_loaded_lines", PyVal.list (s.loadedLines.map PyVal.dict))]
  else []) ++
  s.fields.filterMap (fun kv =>
    if invoiceIsFieldWritable meta kv.1 kv.2 then some (kv.1, serializeFieldValue kv.1 kv.2)
    else Option.none)

end Fakturoid

namespace Fakturoid

/-! ### Shared lookup lemmas -/

theorem lookup_filterMap_serialized_eq_none (p : String → PyVal → Bool) (d : Dict) (f : String)
    (h : ∀ v, p f v = false) :
    (d.filterMap (fun kv =>
      if p kv.1 kv.2 then some (kv.1, serializeFieldValue kv.1 kv.2) else Option.none)).lookup f =
      Option.none := by
  rw [List.lookup_eq_none_iff]
  intro q hq
  rw [List.mem_filterMap] at hq
  obtain ⟨kv, _, heq⟩ := hq
  by_cases hw : p kv.1 kv.2 = true
  · rw [if_pos hw] at heq
    cases heq
    rw [bne_iff_ne]
    intro hfk
    rw [hfk] at h
    rw [h kv.2] at hw
    cases hw
  · rw [if_neg hw] at heq
    cases heq

theorem lookup_dictSet_self (d : Dict) (f : String) (v : PyVal) :
    (dictSet d f v).lookup f = some v := by
  unfold dictSet
  by_cases hmem : d.any (fun kv => kv.1 = f) = true
  · rw [if_pos hmem]
    induction d with
    | nil => simp at hmem
    | cons kv rest ih =>
      obtain ⟨k, w⟩ := kv
      by_cases hk : k = f
      · simp only [List.map_cons, if_pos hk, List.lookup_cons_self]
      · simp only [List.any_cons, decide_eq_true_eq, hk, false_or] at hmem
        simp only [List.map_cons, if_neg hk, List.lookup_cons,
          beq_eq_false_iff_ne.mpr (fun hh => hk hh.symm : f ≠ k)]
        exact ih hmem
  · rw [if_neg hmem]
    simp only [List.any_eq_true, not_exists, not_and, decide_eq_true_eq] at hmem
    induction d with
    | nil => simp
    | cons kv rest ih =>
      obtain ⟨k, w⟩ := kv
      simp only [List.cons_append, List.lookup_cons,
        beq_eq_false_iff_ne.mpr
          (fun hh => hmem (k, w) (List.mem_cons_self (k, w) rest) hh.symm : f ≠ k)]
      exact ih (fun x hx => hmem x (List.mem_cons_of_mem (k, w) hx))


/-! ### Claim C1 -/

/-- A server line as delivered in invoice JSON: it carries a server `id`. -/
def c1RawLine : Dict :=
  [("id", PyVal.int 1), ("name", PyVal.str "Consulting"),
   ("quantity", PyVal.str "2"), ("unit_price", PyVal.str "100.00")]

/-- The `InvoiceLine` instance dictionary that `InvoiceLine(**c1RawLine)`
produces: the preset `quantity` is overwritten by the coerced `Decimal`,
the other fields follow. -/
def c1LineDict : Dict :=
  [("quantity", PyVal.dec ⟨false, [2], []⟩), ("id", PyVal.int 1),
   ("name", PyVal.str "Consulting"), ("unit_price", PyVal.dec ⟨false, [1, 0, 0], [0, 0]⟩)]

/-- **C1** (code bug witness): loading an invoice whose JSON contains one
line with server id `1` and then serializing — with the line still live
and untouched — appends the loaded line dictionary marked
`'_destroy': True` anyway.  The serialized live line has no `'id'` key
(`id` is in `InvoiceLine.Meta.readonly`, so `get_fields` drops it), hence
`map(lambda l: l.get('id'), result)` yields only `None` and the
membership test `remote['id'] not in ids` is true for every loaded line.
This contradicts the claim (and the source's own comment «keep loaded
data to be able delete removed lines»): a line whose id is still present
among the live lines must not be appended. -/
theorem c1_live_line_flagged_for_destroy :
    invoiceUpdateLines [c1RawLine] = some ([c1LineDict], [c1RawLine]) ∧
    invoiceSerializeLines [c1LineDict] [c1RawLine] =
      [PyVal.dict [("quantity", PyVal.str "2"), ("name", PyVal.str "Consulting"),
        ("unit_price", PyVal.str "100.00")],
       PyVal.dict (c1RawLine ++ [("_destroy", PyVal.bool true)])] ∧
    pyDictGet c1LineDict "id" = PyVal.int 1 ∧
    pyDictGet c1RawLine "id" = PyVal.int 1 :=
  ⟨rfl, rfl, rfl, rfl⟩

/-! ### Claims C6 and C9 -/

/-- **C6**: a field named in the model's declared read-only list never
appears in `get_fields()` output — for the base models and for the
invoice-like models — regardless of the instance dictionary, in
particular after a local mutation writing that very field; and the local
mutation itself is not prevented: `dictSet` (attribute assignment)
records the value, observably via lookup. -/
theorem c6_readonly_never_serialized_but_mutable (meta : Meta) (ro : List String)
    (hro : meta.readonly = some ro) (f : String) (hf : f ∈ ro)
    (d : Dict) (v : PyVal) (s : InvoiceState) :
    (modelGetFields meta d).lookup f = Option.none ∧
    (dictSet d f v).lookup f = some v ∧
    (modelGetFields meta (dictSet d f v)).lookup f = Option.none ∧
    (invoiceGetFields meta s).lookup f = Option.none := by
  have hcont : ro.contains f = true := List.elem_eq_true_of_mem hf
  have hw : ∀ w, modelIsFieldWritable meta f w = false := by
    intro w
    unfold modelIsFieldWritable
    rw [hro]
    show (!ro.contains f) = false
    rw [hcont]
    rfl
  have hiw : ∀ w, invoiceIsFieldWritable meta f w = false := by
    intro w
    unfold invoiceIsFieldWritable
    by_cases hpre : (strStartsWith f "your_" || strStartsWith f "client_") = true
    · rw [if_pos hpre]
    · rw [if_neg hpre]
      exact hw w
  refine ⟨lookup_filterMap_serialized_eq_none _ d f hw, lookup_dictSet_self d f v,
    lookup_filterMap_serialized_eq_none _ _ f hw, ?_⟩
  unfold invoiceGetFields
  rw [List.lookup_append, List.lookup_append]
  have h1 : (if invoiceIsFieldWritable meta "lines" (.list []) then
      [("lines", PyVal.list (invoiceSerializeLines s.lines s.loadedLines))]
    else []).lookup f = Option.none := by
    by_cases hl : invoiceIsFieldWritable meta "lines" (.list []) = true
    · rw [if_pos hl]
      by_cases hfl : f = "lines"
      · rw [hfl] at hiw
        rw [hiw (.list [])] at hl
        cases hl
      · simp [List.lookup_cons, beq_eq_false_iff_ne.mpr hfl]
    · rw [if_neg hl]
      rfl
  have h2 : (if invoiceIsFieldWritable meta "_loaded_lines" (.list []) then
      [("_loaded_lines", PyVal.list (s.loadedLines.map PyVal.dict))]
    else []).lookup f = Option.none := by
    by_cases hl : invoiceIsFieldWritable meta "_loaded_lines" (.list []) = true
    · rw [if_pos hl]
      by_cases hfl : f = "_loaded_lines"
      · rw [hfl] at hiw
        rw [hiw (.list [])] at hl
        cases hl
      · simp [List.lookup_cons, beq_eq_false_iff_ne.mpr hfl]
    · rw [if_neg hl]
      rfl
  rw [h1, h2, lookup_filterMap_serialized_eq_none _ _ f hiw]
  rfl

/-- Closed instance of `c6_readonly_never_serialized_but_mutable`:
`Subject.Meta.readonly` lists `id`; a subject whose dictionary carries
`id` (also after locally re-assigning it) never serializes it, while the
assignment itself lands. -/
theorem c6_readonly_never_serialized_but_mutable_witness :
    (modelGetFields subjectMeta [("id", PyVal.int 5)]).lookup "id" = Option.none ∧
    (dictSet [("id", PyVal.int 5)] "id" (PyVal.int 7)).lookup "id" = some (PyVal.int 7) ∧
    (modelGetFields subjectMeta
      (dictSet [("id", PyVal.int 5)] "id" (PyVal.int 7))).lookup "id" = Option.none ∧
    (invoiceGetFields subjectMeta ⟨[], [], [("id", PyVal.int 5)]⟩).lookup "id" = Option.none :=
  c6_readonly_never_serialized_but_mutable subjectMeta _ rfl "id" (by simp)
    [("id", PyVal.int 5)] (PyVal.int 7) ⟨[], [], [("id", PyVal.int 5)]⟩

/-- **C9**: on invoice-like models every field whose name starts with
`your_` or `client_` is excluded from `get_fields()` output, for *every*
`Meta` configuration — hence independently of the declared read-only
list. -/
theorem c9_prefixed_fields_never_serialized (meta : Meta) (s : InvoiceState) (f : String)
    (h : strStartsWith f "your_" = true ∨ strStartsWith f "client_" = true) :
    (invoiceGetFields meta s).lookup f = Option.none := by
  have hpre : (strStartsWith f "your_" || strStartsWith f "client_") = true := by
    rcases h with h | h <;> simp [h]
  have hiw : ∀ w, invoiceIsFieldWritable meta f w = false := by
    intro w
    unfold invoiceIsFieldWritable
    rw [if_pos hpre]
  have hfl : f ≠ "lines" := by
    intro hfl
    rw [hfl] at hpre
    exact absurd hpre (by decide)
  have hfll : f ≠ "_loaded_lines" := by
    intro hfll
    rw [hfll] at hpre
    exact absurd hpre (by decide)
  unfold invoiceGetFields
  rw [List.lookup_append, List.lookup_append]
  have h1 : (if invoiceIsFieldWritable meta "lines" (.list []) then
      [("lines", PyVal.list (invoiceSerializeLines s.lines s.loadedLines))]
    else []).lookup f = Option.none := by
    by_cases hl : invoiceIsFieldWritable meta "lines" (.list []) = true
    · rw [if_pos hl]
      simp [List.lookup_cons, beq_eq_false_iff_ne.mpr hfl]
    · rw [if_neg hl]
      rfl
  have h2 : (if invoiceIsFieldWritable meta "_loaded_lines" (.list []) then
      [("_loaded_lines", PyVal.list (s.loadedLines.map PyVal.dict))]
    else []).lookup f = Option.none := by
    by_cases hl : invoiceIsFieldWritable meta "_loaded_lines" (.list []) = true
    · rw [if_pos hl]
      simp [List.lookup_cons, beq_eq_false_iff_ne.mpr hfll]
    · rw [if_neg hl]
      rfl
  rw [h1, h2, lookup_filterMap_serialized_eq_none _ _ f hiw]
  rfl

/-- Closed instance of `c9_prefixed_fields_never_serialized`: an invoice
state carrying `your_name` (which *is* in `Invoice.Meta.readonly`) and
`client_note` (which is in no read-only list) serializes neither. -/
theorem c9_prefixed_fields_never_serialized_witness :
    (invoiceGetFields invoiceMeta
      ⟨[], [], [("your_name", PyVal.str "Me"), ("client_note", PyVal.str "x")]⟩).lookup
        "client_note" = Option.none ∧
    (invoiceGetFields invoiceMeta
      ⟨[], [], [("your_name", PyVal.str "Me"), ("client_note", PyVal.str "x")]⟩).lookup
        "your_name" = Option.none :=
  ⟨c9_prefixed_fields_never_serialized invoiceMeta _ "client_note" (Or.inr rfl),
   c9_prefixed_fields_never_serialized invoiceMeta _ "your_name" (Or.inl rfl)⟩

/-! ### The API layer — `fakturoid/api.py` -/

/-- Errors raised by the adapter methods before any HTTP request. -/
inductive PyErr where
  | typeError (msg : String)
  | valueError (msg : String)
deriving DecidableEq, Repr

/-- An HTTP request as handed to the transport helpers (`_post`, `_put`,
`_get`, `_delete`): verb, endpoint path (relative to the account base
URL), query parameters and JSON body. -/
structure HttpReq where
  method : String
  endpoint : String
  params : Dict
  body : Dict

/-- The per-resource configuration of `InvoicesApi.fire` /
`ExpensesApi.fire`: the id argument's name, the endpoint root, `EVENTS`,
`EVENT_ARGS`, and which argument undergoes the date check
(`paid_at` / `paid_on`). -/
structure FireConfig where
  idArgName : String
  endpointRoot : String
  events : List String
  eventArgs : List (String × List String)
  dateArg : String

def invoicesFireConfig : FireConfig :=
  ⟨"invoice_id", "invoices",
   ["mark_as_sent", "deliver", "pay", "pay_proforma", "pay_partial_proforma",
    "remove_payment", "deliver_reminder", "cancel", "undo_cancel"],
   [("pay", ["paid_at", "paid_amount"])],
   "paid_at"⟩

def expensesFireConfig : FireConfig :=
  ⟨"expense_id", "expenses",
   ["remove_payment", "deliver", "pay", "lock", "unlock"],
   [("pay", ["paid_on", "paid_amount", "variable_symbol", "bank_account_id"])],
   "paid_on"⟩

/-- `InvoicesApi.fire` / `ExpensesApi.fire`: id type check, event
membership check, keyword whitelist check (`EVENT_ARGS.get(event, set())`
— the empty set when the event declares no whitelist), then the params
dict is built and the date-typed argument validated and ISO-serialized;
only then is `_post` reached (modelled by returning the request).
Messages mirror the source modulo quoting. -/
def fire (cfg : FireConfig) (objId : PyVal) (event : String) (kwargs : Dict) :
    Except PyErr HttpReq :=
  if ¬ pyIsInt objId then .error (.typeError (cfg.idArgName ++ " must be int"))
  else if ¬ cfg.events.contains event then
    .error (.valueError ("invalid event, expected one of " ++ String.intercalate ", " cfg.events))
  else
    let allowed := (cfg.eventArgs.lookup event).getD []
    if ¬ (kwargs.map Prod.fst).all (fun k => allowed.contains k) then
      .error (.valueError ("invalid event arguments, only " ++
        String.intercalate ", " allowed ++ " can be used with " ++ event))
    else
      let params := dictMerge [("event", PyVal.str event)] kwargs
      if pyDictHas params cfg.dateArg then
        match pyDictGet params cfg.dateArg with
        | .date d =>
          .ok ⟨"post", cfg.endpointRoot ++ "/" ++ pyIdStr objId ++ "/fire",
            dictSet params cfg.dateArg (.str (isoDate d)), []⟩
        | .dtime t =>
          .ok ⟨"post", cfg.endpointRoot ++ "/" ++ pyIdStr objId ++ "/fire",
            dictSet params cfg.dateArg (.str (isoDateTime t)), []⟩
        | _ => .error (.typeError (cfg.dateArg ++ " argument must be date"))
      else
        .ok ⟨"post", cfg.endpointRoot ++ "/" ++ pyIdStr objId ++ "/fire", params, []⟩

/-- **C2**: for both invoice and expense event firing, given a well-typed
id, whenever some keyword argument name is outside the event's whitelist
(`EVENT_ARGS.get(event, set())`, the empty set for events with no
declared whitelist), the call returns a `ValueError` — so no HTTP request
is issued (a request is only ever the `.ok` outcome).  In particular an
event absent from `EVENT_ARGS` rejects any non-empty keyword set. -/
theorem c2_fire_rejects_nonwhitelisted_args (cfg : FireConfig) (objId : PyVal)
    (hid : pyIsInt objId = true) (event : String) (kwargs : Dict) :
    ((kwargs.map Prod.fst).all
        (fun k => ((cfg.eventArgs.lookup event).getD []).contains k) = false →
      ∃ m, fire cfg objId event kwargs = .error (.valueError m)) ∧
    (cfg.eventArgs.lookup event = Option.none → kwargs ≠ [] →
      ∃ m, fire cfg objId event kwargs = .error (.valueError m)) := by
  have core : (kwargs.map Prod.fst).all
      (fun k => ((cfg.eventArgs.lookup event).getD []).contains k) = false →
      ∃ m, fire cfg objId event kwargs = .error (.valueError m) := by
    intro hbad
    simp only [fire]
    rw [if_neg (fun h => h hid)]
    by_cases hev : cfg.events.contains event = true
    · rw [if_neg (fun h => h hev), if_pos (fun h => Bool.false_ne_true (hbad ▸ h))]
      exact ⟨_, rfl⟩
    · rw [if_pos (fun h => hev h)]
      exact ⟨_, rfl⟩
  refine ⟨core, fun hno hne => core ?_⟩
  rw [hno]
  cases kwargs with
  | nil => exact absurd rfl hne
  | cons kv rest => rfl

/-- Closed instance of `c2_fire_rejects_nonwhitelisted_args`, both halves:
`fire(3, 'pay', paid_amount=..., note=...)` on invoices (whitelist
`{paid_at, paid_amount}` does not contain `note`), and
`fire(3, 'cancel', note=...)` (no declared whitelist at all). -/
theorem c2_fire_rejects_nonwhitelisted_args_witness :
    (∃ m, fire invoicesFireConfig (PyVal.int 3) "pay"
      [("paid_amount", PyVal.str "10"), ("note", PyVal.str "x")] =
        .error (.valueError m)) ∧
    (∃ m, fire invoicesFireConfig (PyVal.int 3) "cancel"
      [("note", PyVal.str "x")] = .error (.valueError m)) ∧
    (∃ m, fire expensesFireConfig (PyVal.int 3) "lock"
      [("paid_on", PyVal.date ⟨2023, 1, 2⟩)] = .error (.valueError m)) :=
  ⟨(c2_fire_rejects_nonwhitelisted_args invoicesFireConfig (PyVal.int 3) rfl "pay"
      [("paid_amount", PyVal.str "10"), ("note", PyVal.str "x")]).1 (by decide),
   (c2_fire_rejects_nonwhitelisted_args invoicesFireConfig (PyVal.int 3) rfl "cancel"
      [("note", PyVal.str "x")]).2 rfl (fun h => List.noConfusion h),
   (c2_fire_rejects_nonwhitelisted_args expensesFireConfig (PyVal.int 3) rfl "lock"
      [("paid_on", PyVal.date ⟨2023, 1, 2⟩)]).2 rfl (fun h => List.noConfusion h)⟩


/-! ### `find` filter building (`InvoicesApi.find`, `SubjectsApi.find`) -/

/-- One `if <param>: if not isinstance(...): raise TypeError else
params[name] = ser(<param>)` block of a `find` method: a falsy argument
is skipped entirely, a truthy one is type-checked and then stored
(serialized). -/
def checkedParam (params : Dict) (name : String) (v : PyVal) (ok : PyVal → Bool)
    (ser : PyVal → PyVal) (msg : String) : Except PyErr Dict :=
  if pyTruthy v then
    if ok v then .ok (dictSet params name (ser v)) else .error (.typeError msg)
  else .ok params

/-- An unchecked `if <param>: params[name] = <param>` block. -/
def plainParam (params : Dict) (name : String) (v : PyVal) : Dict :=
  if pyTruthy v then dictSet params name v else params

/-- The `status` block: a truthy status must be a member of the class's
`STATUSES` string list, else `ValueError`. -/
def statusParam (params : Dict) (statuses : List String) (v : PyVal) : Except PyErr Dict :=
  if pyTruthy v then
    if (match v with | .str s => statuses.contains s | _ => false) then
      .ok (dictSet params "status" v)
    else
      .error (.valueError ("invalid invoice status, expected one of " ++
        String.intercalate ", " statuses))
  else .ok params

def invoiceStatuses : List String := ["open", "sent", "overdue", "paid", "cancelled"]

/-- Exception propagation through the sequential blocks of a `find`
method: once a block raises, the rest is not reached. -/
def andThen (e : Except PyErr Dict) (f : Dict → Except PyErr Dict) : Except PyErr Dict :=
  match e with
  | .error er => .error er
  | .ok p => f p

/-- `InvoicesApi.find`: builds the query parameter dict block by block in
source order and returns it wrapped in a lazy `ModelList` — no HTTP
request is issued by `find` itself, so an `.ok` outcome is request-free
and an `.error` outcome is an exception raised before any request could
ever be dispatched. -/
def invoicesFind (proforma : Option Bool)
    (subject_id since untilArg updated_since updated_until number status custom_id : PyVal) :
    Except PyErr Dict :=
  andThen (checkedParam [] "subject_id" subject_id pyIsInt (fun v => v)
      "subject_id parameter must be int") (fun p =>
  andThen (checkedParam p "since" since pyIsDateLike (fun v => .str (pyIso v))
      "since parameter must be date or datetime") (fun p =>
  andThen (checkedParam p "until" untilArg pyIsDateLike (fun v => .str (pyIso v))
      "until parameter must be date or datetime") (fun p =>
  andThen (checkedParam p "updated_since" updated_since pyIsDateLike (fun v => .str (pyIso v))
      "updated_since parameter must be date or datetime") (fun p =>
  andThen (checkedParam p "updated_until" updated_until pyIsDateLike (fun v => .str (pyIso v))
      "updated_until parameter must be date or datetime") (fun p =>
  andThen (statusParam (plainParam (plainParam p "number" number) "custom_id" custom_id)
      invoiceStatuses status) (fun p =>
  .ok (match proforma with
    | some true => dictSet p "document_type" (.str "proforma")
    | some false => dictSet p "document_type" (.str "regular")
    | Option.none => p)))))))

/-- `SubjectsApi.find`. -/
def subjectsFind (since updated_since custom_id : PyVal) : Except PyErr Dict :=
  andThen (checkedParam [] "since" since pyIsDateLike (fun v => .str (pyIso v))
      "since parameter must be date or datetime") (fun p =>
  andThen (checkedParam p "updated_since" updated_since pyIsDateLike (fun v => .str (pyIso v))
      "updated_since parameter must be date or datetime") (fun p =>
  .ok (plainParam p "custom_id" custom_id)))

theorem andThen_error (e : Except PyErr Dict) (f : Dict → Except PyErr Dict) (m : PyErr)
    (he : e = .error m) : andThen e f = .error m := by
  rw [he]
  rfl

theorem andThen_typeError (e : Except PyErr Dict) (f : Dict → Except PyErr Dict)
    (hshape : (∃ p, e = .ok p) ∨ ∃ m, e = .error (.typeError m))
    (hf : ∀ p, ∃ m, f p = .error (.typeError m)) :
    ∃ m, andThen e f = .error (.typeError m) := by
  rcases hshape with ⟨p, hp⟩ | ⟨m, hm⟩
  · rw [hp]
    exact hf p
  · exact ⟨m, andThen_error e f _ hm⟩

theorem checkedParam_shape (params : Dict) (name : String) (v : PyVal) (ok : PyVal → Bool)
    (ser : PyVal → PyVal) (msg : String) :
    (∃ p, checkedParam params name v ok ser msg = .ok p) ∨
    ∃ m, checkedParam params name v ok ser msg = .error (.typeError m) := by
  unfold checkedParam
  by_cases hv : pyTruthy v = true
  · rw [if_pos hv]
    by_cases hok : ok v = true
    · rw [if_pos hok]
      exact .inl ⟨_, rfl⟩
    · rw [if_neg (fun h => hok h)]
      exact .inr ⟨msg, rfl⟩
  · rw [if_neg (fun h => hv h)]
    exact .inl ⟨_, rfl⟩

theorem checkedParam_bad (params : Dict) (name : String) (v : PyVal) (ok : PyVal → Bool)
    (ser : PyVal → PyVal) (msg : String) (hv : pyTruthy v = true) (hok : ok v = false) :
    checkedParam params name v ok ser msg = .error (.typeError msg) := by
  unfold checkedParam
  rw [if_pos hv, if_neg (fun h => Bool.false_ne_true (hok ▸ h))]

/-- **C8** (counterexample): `find(since=0)` — `0` is neither a `date` nor
a `datetime`, yet no type error is raised: `if since:` is falsy, so the
parameter is silently skipped and the call succeeds with an empty
parameter dict.  The claim, which demands a raise for *any* non-date
value, is false. -/
theorem c8_falsy_nondate_skipped_counterexample :
    invoicesFind Option.none PyVal.none (PyVal.int 0) PyVal.none PyVal.none PyVal.none
      PyVal.none PyVal.none PyVal.none = .ok [] ∧
    pyIsDateLike (PyVal.int 0) = false ∧
    subjectsFind (PyVal.int 0) PyVal.none PyVal.none = .ok [] :=
  ⟨rfl, rfl, rfl⟩


/-- **C8** (amended): a *truthy* value of a date-typed filter parameter
(`since`, `until`, `updated_since`, `updated_until`) that is not a date
or datetime makes `find` raise a `TypeError` before returning (and
`find` never issues a request anyway: it returns a lazy `ModelList`);
falsy non-date values, by contrast, are silently omitted (see the
counterexample). -/
theorem c8_truthy_nondate_raises (proforma : Option Bool)
    (subject_id since untilArg updated_since updated_until number status custom_id : PyVal) :
    (((pyTruthy since = true ∧ pyIsDateLike since = false) ∨
      (pyTruthy untilArg = true ∧ pyIsDateLike untilArg = false) ∨
      (pyTruthy updated_since = true ∧ pyIsDateLike updated_since = false) ∨
      (pyTruthy updated_until = true ∧ pyIsDateLike updated_until = false)) →
      ∃ m, invoicesFind proforma subject_id since untilArg updated_since updated_until
        number status custom_id = .error (.typeError m)) ∧
    (((pyTruthy since = true ∧ pyIsDateLike since = false) ∨
      (pyTruthy updated_since = true ∧ pyIsDateLike updated_since = false)) →
      ∃ m, subjectsFind since updated_since custom_id = .error (.typeError m)) := by
  constructor
  · intro h
    unfold invoicesFind
    apply andThen_typeError _ _ (checkedParam_shape _ _ _ _ _ _)
    intro p1
    rcases h with ⟨hv, hnd⟩ | h
    · exact ⟨_, andThen_error _ _ _ (checkedParam_bad _ _ _ _ _ _ hv hnd)⟩
    apply andThen_typeError _ _ (checkedParam_shape _ _ _ _ _ _)
    intro p2
    rcases h with ⟨hv, hnd⟩ | h
    · exact ⟨_, andThen_error _ _ _ (checkedParam_bad _ _ _ _ _ _ hv hnd)⟩
    apply andThen_typeError _ _ (checkedParam_shape _ _ _ _ _ _)
    intro p3
    rcases h with ⟨hv, hnd⟩ | ⟨hv, hnd⟩
    · exact ⟨_, andThen_error _ _ _ (checkedParam_bad _ _ _ _ _ _ hv hnd)⟩
    apply andThen_typeError _ _ (checkedParam_shape _ _ _ _ _ _)
    intro p4
    exact ⟨_, andThen_error _ _ _ (checkedParam_bad _ _ _ _ _ _ hv hnd)⟩
  · intro h
    unfold subjectsFind
    rcases h with ⟨hv, hnd⟩ | ⟨hv, hnd⟩
    · exact ⟨_, andThen_error _ _ _ (checkedParam_bad _ _ _ _ _ _ hv hnd)⟩
    apply andThen_typeError _ _ (checkedParam_shape _ _ _ _ _ _)
    intro p1
    exact ⟨_, andThen_error _ _ _ (checkedParam_bad _ _ _ _ _ _ hv hnd)⟩

/-- Closed instance of `c8_truthy_nondate_raises`: `since='2023'` (a
truthy string) raises a `TypeError` in both `InvoicesApi.find` and
`SubjectsApi.find`. -/
theorem c8_truthy_nondate_raises_witness :
    (∃ m, invoicesFind Option.none PyVal.none (PyVal.str "2023") PyVal.none PyVal.none
      PyVal.none PyVal.none PyVal.none PyVal.none = .error (.typeError m)) ∧
    ∃ m, subjectsFind (PyVal.str "2023") PyVal.none PyVal.none = .error (.typeError m) :=
  ⟨(c8_truthy_nondate_raises Option.none PyVal.none (PyVal.str "2023") PyVal.none PyVal.none
      PyVal.none PyVal.none PyVal.none PyVal.none).1 (Or.inl ⟨rfl, rfl⟩),
   (c8_truthy_nondate_raises Option.none PyVal.none (PyVal.str "2023") PyVal.none PyVal.none
      PyVal.none PyVal.none PyVal.none PyVal.none).2 (Or.inl ⟨rfl, rfl⟩)⟩


/-! ### `save` (`CrudModelApi.save`, `MessagesApi.save`, `PaymentsApi.save`) -/

/-- `CrudModelApi.save(model)`: `PUT {endpoint}/{id}` when `model.id` is
truthy, else `POST {endpoint}`, body `model.get_fields()`; afterwards
`model.update(result['json'])` merges the response into the model (the
second component; `none` models a coercion error while merging). -/
def crudSave (meta : Meta) (endpoint : String) (modelDict respJson : Dict) :
    HttpReq × Option Dict :=
  let modelId := pyDictGet modelDict "id"
  let req : HttpReq :=
    if pyTruthy modelId then
      ⟨"put", endpoint ++ "/" ++ pyIdStr modelId, [], modelGetFields meta modelDict⟩
    else
      ⟨"post", endpoint, [], modelGetFields meta modelDict⟩
  (req, (modelUpdate meta modelDict respJson).map (fun p => p.1))

/-- `MessagesApi.save(model, invoice_id=...)`: always a `POST` to the
nested `invoices/{invoice_id}/message` endpoint, regardless of whether
the model has an id; the response is discarded, so the model dictionary
is returned unchanged. -/
def messagesSave (modelDict : Dict) (invoice_id : PyVal) : Except PyErr (HttpReq × Dict) :=
  if ¬ pyIsInt invoice_id then .error (.typeError "invoice_id must be int")
  else
    .ok (⟨"post", "invoices/" ++ pyIdStr invoice_id ++ "/message", [],
      modelGetFields invoiceMessageMeta modelDict⟩, modelDict)

/-- Modelled from the spec: the `InvoicePayment` model class is imported
by `api.py` but absent from `models.py`, so its `Meta` configuration is
unknown; `PaymentsApi.save` (which is present in the source) is embedded
parametrically in that `Meta`.  It always `POST`s to the nested
`invoices/{invoice_id}/payments` endpoint and merges the response into
the model. -/
def paymentsSave (meta : Meta) (modelDict : Dict) (invoice_id : PyVal) (respJson : Dict) :
    Except PyErr (HttpReq × Option Dict) :=
  if ¬ pyIsInt invoice_id then .error (.typeError "invoice_id must be int")
  else
    .ok (⟨"post", "invoices/" ++ pyIdStr invoice_id ++ "/payments", [],
      modelGetFields meta modelDict⟩,
      (modelUpdate meta modelDict respJson).map (fun p => p.1))

/-- **C5** (counterexample): saving an `InvoiceMessage` that *does* carry
an id issues a `POST` (to the invoice-nested endpoint, not the item
endpoint) and returns the model unchanged (no response is merged) —
refuting both halves of the claim for this resource adapter. -/
theorem c5_messages_save_posts_despite_id :
    messagesSave [("id", PyVal.int 5), ("subject", PyVal.str "Hi")] (PyVal.int 7) =
      .ok (⟨"post", "invoices/7/message", [],
        [("id", PyVal.int 5), ("subject", PyVal.str "Hi")]⟩,
        [("id", PyVal.int 5), ("subject", PyVal.str "Hi")]) ∧
    pyTruthy (pyDictGet [("id", PyVal.int 5), ("subject", PyVal.str "Hi")] "id") = true ∧
    "post" ≠ "put" :=
  ⟨rfl, rfl, by decide⟩

/-- **C5** (amended): the PUT-if-id/POST-otherwise rule with in-place
response merge holds for the `CrudModelApi`-based adapters (subjects,
invoices, expenses, generators); `MessagesApi.save` and
`PaymentsApi.save` instead always `POST` to the invoice-nested endpoint
regardless of the model's id, with `PaymentsApi` merging the response
into the model and `MessagesApi` discarding it. -/
theorem c5_save_methods (meta : Meta) (endpoint : String) (modelDict respJson : Dict)
    (invoice_id : PyVal) (hid : pyIsInt invoice_id = true) :
    (pyTruthy (pyDictGet modelDict "id") = true →
      (crudSave meta endpoint modelDict respJson).1 =
        ⟨"put", endpoint ++ "/" ++ pyIdStr (pyDictGet modelDict "id"), [],
          modelGetFields meta modelDict⟩) ∧
    (pyTruthy (pyDictGet modelDict "id") = false →
      (crudSave meta endpoint modelDict respJson).1 =
        ⟨"post", endpoint, [], modelGetFields meta modelDict⟩) ∧
    ((crudSave meta endpoint modelDict respJson).2 =
      (modelUpdate meta modelDict respJson).map (fun p => p.1)) ∧
    (messagesSave modelDict invoice_id =
      .ok (⟨"post", "invoices/" ++ pyIdStr invoice_id ++ "/message", [],
        modelGetFields invoiceMessageMeta modelDict⟩, modelDict)) ∧
    (paymentsSave meta modelDict invoice_id respJson =
      .ok (⟨"post", "invoices/" ++ pyIdStr invoice_id ++ "/payments", [],
        modelGetFields meta modelDict⟩,
        (modelUpdate meta modelDict respJson).map (fun p => p.1))) := by
  refine ⟨fun ht => ?_, fun hf => ?_, rfl, ?_, ?_⟩
  · simp only [crudSave]
    rw [if_pos ht]
  · simp only [crudSave]
    rw [if_neg (fun h => Bool.false_ne_true (hf ▸ h))]
  · unfold messagesSave
    rw [if_neg (fun h => h hid)]
  · unfold paymentsSave
    rw [if_neg (fun h => h hid)]

/-- Closed instance of `c5_save_methods`: a subject with id `3` saves via
`PUT subjects/3`; the nested message and payment saves `POST` to the
invoice-nested endpoints. -/
theorem c5_save_methods_witness :
    ((crudSave subjectMeta "subjects" [("id", PyVal.int 3)] [("name", PyVal.str "B")]).1 =
      ⟨"put", "subjects/3", [], []⟩) ∧
    (messagesSave [("id", PyVal.int 3)] (PyVal.int 7) =
      .ok (⟨"post", "invoices/7/message", [], [("id", PyVal.int 3)]⟩,
        [("id", PyVal.int 3)])) ∧
    (paymentsSave accountMeta [("id", PyVal.int 3)] (PyVal.int 7) [] =
      .ok (⟨"post", "invoices/7/payments", [], [("id", PyVal.int 3)]⟩,
        some [("id", PyVal.int 3)])) := by
  have h := c5_save_methods subjectMeta "subjects" [("id", PyVal.int 3)]
    [("name", PyVal.str "B")] (PyVal.int 7) rfl
  have h2 := c5_save_methods accountMeta "x" [("id", PyVal.int 3)] [] (PyVal.int 7) rfl
  exact ⟨h.1 rfl, h2.2.2.2.1, h2.2.2.2.2⟩


/-! ### `Fakturoid._make_request` — transport error handling -/

/-- JSON values as returned by `requests.Response.json()` (numbers are
modelled by integers; the API exchanges no fractional literals outside
decimal-as-string fields). -/
inductive Js where
  | null
  | b (v : Bool)
  | num (n : Int)
  | str (s : String)
  | arr (xs : List Js)
  | obj (kvs : List (String × Js))

def jsTruthy : Js → Bool
  | .null => false
  | .b v => v
  | .num n => n != 0
  | .str s => !s.isEmpty
  | .arr xs => !xs.isEmpty
  | .obj kvs => !kvs.isEmpty

/-- Substring test used by Python `needle in string`. -/
def listHasSub (needle : List Char) : List Char → Bool
  | [] => needle.isEmpty
  | c :: cs => needle.isPrefixOf (c :: cs) || listHasSub needle cs

/-- Python `"errors" in json_result`: key membership on a dict, element
equality on a list, substring on a string, and a `TypeError` (the
`.error` case) on numbers, booleans and `None`. -/
def pyInErrors : Js → Except Unit Bool
  | .obj kvs => .ok (kvs.any (fun kv => kv.1 == "errors"))
  | .arr xs => .ok (xs.any (fun j => match j with | .str s => s == "errors" | _ => false))
  | .str s => .ok (listHasSub "errors".toList s.toList)
  | .num _ => .error ()
  | .b _ => .error ()
  | .null => .error ()

/-- Python `json_result["errors"]`: dict lookup (`KeyError` cannot fire
after a successful membership test), `TypeError` on any other type. -/
def pySubscriptErrors : Js → Except Unit Js
  | .obj kvs =>
    match kvs.lookup "errors" with
    | some v => .ok v
    | Option.none => .error ()
  | _ => .error ()

/-- Outcome of `Fakturoid._make_request` (the `link`-header page count is
orthogonal to the claim and elided).  `retNone` is the method falling
off the end and returning Python `None`. -/
inductive ReqOutcome where
  | ok (body : Option Js)
  | valueError (payload : Js)
  | httpError (status : Nat)
  | typeError
  | retNone

/-- `requests.Response.raise_for_status`: raises `HTTPError` only for
client-error (4xx) and server-error (5xx) status codes; for any other
status it returns `None`, so `_make_request` falls off the end and
returns `None`. -/
def raiseForStatus (status : Nat) : ReqOutcome :=
  if 400 ≤ status ∧ status ≤ 599 then .httpError status else .retNone

/-- `Fakturoid._make_request` after the HTTP exchange: `body` is the
parsed JSON (`none` when `r.json()` raised).  On the success status the
response is returned; otherwise `if json_result and "errors" in
json_result: raise ValueError(json_result["errors"])`, and finally
`r.raise_for_status()`, which raises only on 4xx/5xx. -/
def makeRequest (success status : Nat) (body : Option Js) : ReqOutcome :=
  if status = success then .ok body
  else
    match body with
    | Option.none => raiseForStatus status
    | some j =>
      if jsTruthy j then
        match pyInErrors j with
        | .error _ => .typeError
        | .ok true =>
          match pySubscriptErrors j with
          | .ok payload => .valueError payload
          | .error _ => .typeError
        | .ok false => raiseForStatus status
      else raiseForStatus status

/-- The body "contains an errors key" in the sense of the claim (keys
belong to JSON objects). -/
def jsonHasErrorsKey : Option Js → Bool
  | some (.obj kvs) => kvs.any (fun kv => kv.1 == "errors")
  | _ => false

def jsonErrorsPayload : Option Js → Option Js
  | some (.obj kvs) => kvs.lookup "errors"
  | _ => Option.none

/-- The claim C4, formalized from the spec's words: on the success status
no error; on any other status a value error carrying the errors payload
when the body has an `errors` key, a generic HTTP status error
otherwise. -/
def specC4 (success status : Nat) (body : Option Js) : Prop :=
  (status = success → makeRequest success status body = .ok body) ∧
  (status ≠ success →
    (jsonHasErrorsKey body = true →
      makeRequest success status body = .valueError ((jsonErrorsPayload body).getD .null)) ∧
    (jsonHasErrorsKey body = false →
      makeRequest success status body = .httpError status))

/-- **C4** (counterexample): two non-success responses the claim
mis-describes.  A `400` whose body parses as the JSON number `5`
(truthy, no `errors` key) should per the claim raise the generic HTTP
status error, but `"errors" in 5` raises a `TypeError` instead.  And a
`200` against expected success `201` raises nothing at all:
`r.raise_for_status()` is a no-op outside 4xx/5xx, so `_make_request`
silently returns `None` where the claim promises an HTTP error. -/
theorem c4_nonobject_body_counterexample :
    (makeRequest 201 400 (some (.num 5)) = .typeError ∧ ¬ specC4 201 400 (some (.num 5))) ∧
    (makeRequest 201 200 Option.none = .retNone ∧ ¬ specC4 201 200 Option.none) := by
  refine ⟨⟨rfl, fun h => ?_⟩, ⟨rfl, fun h => ?_⟩⟩
  · have h2 := (h.2 (by decide)).2 rfl
    have h3 : ReqOutcome.typeError = ReqOutcome.httpError 400 := by
      rw [← h2]
      rfl
    exact ReqOutcome.noConfusion h3
  · have h2 := (h.2 (by decide)).2 rfl
    have h3 : ReqOutcome.retNone = ReqOutcome.httpError 200 := by
      rw [← h2]
      rfl
    exact ReqOutcome.noConfusion h3

/-- The truthy bodies on which the `errors` probe itself raises a
`TypeError`: numbers, booleans, and arrays/strings on which the
membership test succeeds but the subscript is untypable. -/
def probeTypeError : Option Js → Bool
  | some (.num n) => n != 0
  | some (.b v) => v
  | some (.str s) => !s.isEmpty && listHasSub "errors".toList s.toList
  | some (.arr xs) =>
    !xs.isEmpty && xs.any (fun j => match j with | .str s => s == "errors" | _ => false)
  | _ => false

/-- When no `ValueError`/`TypeError` fires on the error path, control
reaches the final `r.raise_for_status()`. -/
theorem makeRequest_fallthrough (success status : Nat) (body : Option Js)
    (hne : status ≠ success) (hkey : jsonHasErrorsKey body = false)
    (hpe : probeTypeError body = false) :
    makeRequest success status body = raiseForStatus status := by
  match body with
  | Option.none => simp [makeRequest, hne]
  | some .null => simp [makeRequest, hne, jsTruthy]
  | some (.b v) =>
    simp only [probeTypeError] at hpe
    simp [makeRequest, hne, jsTruthy, hpe]
  | some (.num n) =>
    simp only [probeTypeError] at hpe
    simp [makeRequest, hne, jsTruthy, hpe]
  | some (.str s) =>
    simp only [probeTypeError] at hpe
    by_cases he : s.isEmpty = true
    · simp [makeRequest, hne, jsTruthy, he]
    · rw [Bool.and_eq_false_iff] at hpe
      rcases hpe with hpe | hsub
      · simp at hpe
        simp [hpe] at he
      · have hin : pyInErrors (Js.str s) = .ok false := by
          simp only [pyInErrors, hsub]
        simp [makeRequest, hne, jsTruthy, he, hin]
  | some (.arr xs) =>
    simp only [probeTypeError] at hpe
    by_cases he : xs.isEmpty = true
    · simp [makeRequest, hne, jsTruthy, he]
    · rw [Bool.and_eq_false_iff] at hpe
      rcases hpe with hpe | hany
      · simp at hpe
        simp [hpe] at he
      · have hin : pyInErrors (Js.arr xs) = .ok false := by
          simp only [pyInErrors, hany]
        simp [makeRequest, hne, jsTruthy, he, hin]
  | some (.obj kvs) =>
    simp only [jsonHasErrorsKey] at hkey
    by_cases he : kvs.isEmpty = true
    · simp [makeRequest, hne, jsTruthy, he]
    · have hin : pyInErrors (Js.obj kvs) = .ok false := by
        simp only [pyInErrors, hkey]
      simp [makeRequest, hne, jsTruthy, he, hin]

/-- **C4** (amended): on the success status the parsed body is returned
with no error.  On a non-success status: a JSON *object* body with an
`errors` key raises a value error carrying that payload; a truthy number
or boolean body, an array body containing the string `"errors"`, or a
string body containing `"errors"` as a substring raises a `TypeError`
from the containment probe / subscript; for every other body (absent,
falsy, or non-matching) `r.raise_for_status()` raises the generic HTTP
status error when the status is 4xx/5xx, and for any other non-success
status (a stray 2xx or a 3xx) it raises nothing and the method silently
returns `None`. -/
theorem c4_make_request_outcomes (success status : Nat) (body : Option Js) :
    (status = success → makeRequest success status body = .ok body) ∧
    (status ≠ success → jsonHasErrorsKey body = true →
      ∃ p, jsonErrorsPayload body = some p ∧ makeRequest success status body = .valueError p) ∧
    (status ≠ success → jsonHasErrorsKey body = false → probeTypeError body = true →
      makeRequest success status body = .typeError) ∧
    (status ≠ success → jsonHasErrorsKey body = false → probeTypeError body = false →
      400 ≤ status → status ≤ 599 → makeRequest success status body = .httpError status) ∧
    (status ≠ success → jsonHasErrorsKey body = false → probeTypeError body = false →
      ¬ (400 ≤ status ∧ status ≤ 599) → makeRequest success status body = .retNone) := by
  refine ⟨fun he => ?_, fun hne hkey => ?_, fun hne hkey hpe => ?_,
    fun hne hkey hpe hlo hhi => ?_, fun hne hkey hpe hout => ?_⟩
  · unfold makeRequest
    rw [if_pos he]
  · match body with
    | some (.obj kvs) =>
      simp only [jsonHasErrorsKey] at hkey
      have htr : jsTruthy (Js.obj kvs) = true := by
        rw [List.any_eq_true] at hkey
        obtain ⟨kv, hmem, _⟩ := hkey
        cases kvs with
        | nil => cases hmem
        | cons a l => rfl
      have hin : pyInErrors (Js.obj kvs) = .ok true := by
        simp only [pyInErrors, hkey]
      have hsome : (kvs.lookup "errors").isSome := by
        rw [List.lookup_isSome_iff]
        rw [List.any_eq_true] at hkey
        obtain ⟨kv, hmem, hk⟩ := hkey
        rw [beq_iff_eq] at hk
        exact ⟨kv, hmem, by rw [beq_iff_eq, hk]⟩
      obtain ⟨p, hp⟩ := Option.isSome_iff_exists.mp hsome
      have hsub : pySubscriptErrors (Js.obj kvs) = .ok p := by
        simp only [pySubscriptErrors, hp]
      refine ⟨p, by simp [jsonErrorsPayload, hp], ?_⟩
      simp [makeRequest, hne, htr, hin, hsub]
  · match body with
    | some (.num n) =>
      simp only [probeTypeError] at hpe
      simp [makeRequest, hne, jsTruthy, hpe, pyInErrors]
    | some (.b v) =>
      simp only [probeTypeError] at hpe
      simp [makeRequest, hne, jsTruthy, hpe, pyInErrors]
    | some (.str s) =>
      simp only [probeTypeError, Bool.and_eq_true] at hpe
      obtain ⟨htr, hsub⟩ := hpe
      have hin : pyInErrors (Js.str s) = .ok true := by
        simp only [pyInErrors, hsub]
      simp [makeRequest, hne, jsTruthy, htr, hin, pySubscriptErrors]
    | some (.arr xs) =>
      simp only [probeTypeError, Bool.and_eq_true] at hpe
      obtain ⟨htr, hany⟩ := hpe
      have hin : pyInErrors (Js.arr xs) = .ok true := by
        simp only [pyInErrors, hany]
      simp [makeRequest, hne, jsTruthy, htr, hin, pySubscriptErrors]
  · rw [makeRequest_fallthrough success status body hne hkey hpe]
    unfold raiseForStatus
    rw [if_pos ⟨hlo, hhi⟩]
  · rw [makeRequest_fallthrough success status body hne hkey hpe]
    unfold raiseForStatus
    rw [if_neg hout]

/-- Closed instance of `c4_make_request_outcomes`: status `422` against
success `201` with body `{"errors": "required"}` raises the value error
carrying the payload; a `404` with an error-free object body raises the
generic HTTP error; a stray `200` with the same body silently returns
`None`; status `201` succeeds. -/
theorem c4_make_request_outcomes_witness :
    (∃ p, jsonErrorsPayload (some (.obj [("errors", .str "required")])) = some p ∧
      makeRequest 201 422 (some (.obj [("errors", .str "required")])) = .valueError p) ∧
    makeRequest 201 404 (some (.obj [("ok", .b true)])) = .httpError 404 ∧
    makeRequest 201 200 (some (.obj [("ok", .b true)])) = .retNone ∧
    makeRequest 201 201 (some (.obj [("id", .num 3)])) = .ok (some (.obj [("id", .num 3)])) :=
  ⟨(c4_make_request_outcomes 201 422 (some (.obj [("errors", .str "required")]))).2.1
      (by decide) rfl,
   (c4_make_request_outcomes 201 404 (some (.obj [("ok", .b true)]))).2.2.2.1
      (by decide) rfl rfl (by decide) (by decide),
   (c4_make_request_outcomes 201 200 (some (.obj [("ok", .b true)]))).2.2.2.2
      (by decide) rfl rfl (by decide),
   (c4_make_request_outcomes 201 201 (some (.obj [("id", .num 3)]))).1 rfl⟩


/-! ### Paged lists — `fakturoid/paging.py` -/

/-- Instance state of a `PagedResource`/`ModelList`: `self.objects`
(`None` until materialized), the `self.pages` cache, and
`self.item_count`. -/
structure PState (α : Type) where
  objects : Option (List α)
  pages : List (Nat × List α)
  itemCount : Option Nat
deriving Repr

/-- `ModelList.__init__` / `PagedResource.__init__`. -/
def freshPState {α : Type} : PState α := ⟨Option.none, [], Option.none⟩

/-- `ModelList.load_page(n)`: one `GET` with `page=n+1`; the server is
modelled as the list of its pages, and a page beyond the end is the
empty list (the end-of-list signal). -/
def loadPage {α : Type} (server : List (List α)) (n : Nat) : List α := server.getD n []

/-- `PagedResource.get_page(n)`: serve from the cache, otherwise call
`load_page` (one HTTP request — logged), caching a non-empty result and
raising `IndexError` (`.error`) on an empty one.  The third component
logs the page numbers requested over the wire. -/
def getPage {α : Type} (server : List (List α)) (s : PState α) (n : Nat) :
    Except Unit (List α) × PState α × List Nat :=
  match s.pages.lookup n with
  | some p => (.ok p, s, [])
  | Option.none =>
    let p := loadPage server n
    if p.isEmpty then (.error (), s, [n])
    else (.ok p, { s with pages := s.pages ++ [(n, p)] }, [n])

/-- The `for n in itertools.count()` loop of `load_all_pages`, with
explicit fuel (a modelling artifact only: the loop always stops within
`server.length + s.pages.length + 1` iterations, which is what
`loadAllPages` passes). -/
def loadLoop {α : Type} (server : List (List α)) (s : PState α) (n : Nat) (acc : List α)
    (log : List Nat) : Nat → PState α × List Nat
  | 0 => ({ s with objects := some acc, itemCount := some acc.length }, log)
  | fuel + 1 =>
    match getPage server s n with
    | (.ok p, s1, lg) => loadLoop server s1 (n + 1) (acc ++ p) (log ++ lg) fuel
    | (.error _, s1, lg) =>
      ({ s1 with objects := some acc, itemCount := some acc.length }, log ++ lg)

/-- `PagedResource.load_all_pages`. -/
def loadAllPages {α : Type} (server : List (List α)) (s : PState α) : PState α × List Nat :=
  loadLoop server s 0 [] [] (server.length + s.pages.length + 1)

/-- `PagedResource.ensure_all_pages`: `if not self.objects` — `None` *and*
the empty list both trigger a (re)load. -/
def ensureAllPages {α : Type} (server : List (List α)) (s : PState α) :
    PState α × List Nat :=
  match s.objects with
  | some (_ :: _) => (s, [])
  | _ => loadAllPages server s

/-- `PagedResource.__len__`. -/
def pyLen {α : Type} (server : List (List α)) (s : PState α) :
    Nat × PState α × List Nat :=
  let r := ensureAllPages server s
  (r.1.itemCount.getD 0, r.1, r.2)

/-- `self.objects[i]` for a non-negative index. -/
def objAt {α : Type} (s : PState α) (i : Nat) : Except Unit α :=
  match s.objects with
  | some l =>
    match l.get? i with
    | some x => .ok x
    | Option.none => .error ()
  | Option.none => .error ()

/-- `PagedResource.__getitem__` with an integer key: `ensure_all_pages()`
first; a negative key is shifted by `len(self)` (a second
`ensure_all_pages` via `__len__`) and `IndexError` is raised when still
negative or out of range. -/
def getitemInt {α : Type} (server : List (List α)) (s : PState α) (key : Int) :
    Except Unit α × PState α × List Nat :=
  let r1 := ensureAllPages server s
  if key < 0 then
    let r2 := pyLen server r1.1
    let adjusted := (r2.1 : Int) + key
    ((if adjusted < 0 then .error () else objAt r2.2.1 adjusted.toNat),
      r2.2.1, r1.2 ++ r2.2.2)
  else (objAt r1.1 key.toNat, r1.1, r1.2)

/-- The elements `islice(self, start, stop, step)` yields once consumed:
`self[start], self[start+step], …` below `stop` (each `self[i]` hits the
already-materialized `objects`).  `step = 0` (rejected by
`slice.indices`) is out of the modelled fragment. -/
def sliceElems {α : Type} (l : List α) (start stop step : Nat) : List α :=
  if step = 0 then []
  else ((List.range l.length).filter
    (fun i => decide (start ≤ i) && decide (i < stop) && decide ((i - start) % step = 0))).filterMap
      l.get?

/-- `PagedResource.__getitem__` with a (non-negative) slice key:
`ensure_all_pages()` runs before the key is even inspected, then
`key.indices(len(self))` calls `__len__` (a second `ensure_all_pages`)
and clamps the bounds, and the returned `islice` enumerates the
materialized `objects`. -/
def getitemSlice {α : Type} (server : List (List α)) (s : PState α)
    (start stop step : Nat) : List α × PState α × List Nat :=
  let r1 := ensureAllPages server s
  let r2 := pyLen server r1.1
  (sliceElems (match r2.2.1.objects with | some l => l | Option.none => [])
    (min start r2.1) (min stop r2.1) step, r2.2.1, r1.2 ++ r2.2.2)

def enumFrom {α : Type} (n : Nat) : List (List α) → List (Nat × List α)
  | [] => []
  | p :: ps => (n, p) :: enumFrom (n + 1) ps

def rangeFrom (n : Nat) : Nat → List Nat
  | 0 => []
  | k + 1 => n :: rangeFrom (n + 1) k

/-- The fully materialized state: all items in order, every page cached,
the item count set. -/
def materialized {α : Type} (server : List (List α)) : PState α :=
  ⟨some server.flatten, enumFrom 0 server, some server.flatten.length⟩

theorem loadLoop_spec {α : Type} (server : List (List α)) (hne : ∀ p ∈ server, p ≠ []) :
    ∀ fuel n (s : PState α) acc log, (∀ kv ∈ s.pages, kv.1 < n) →
      server.length - n + 1 ≤ fuel →
      loadLoop server s n acc log fuel =
        ({ objects := some (acc ++ (server.drop n).flatten),
           pages := s.pages ++ enumFrom n (server.drop n),
           itemCount := some (acc ++ (server.drop n).flatten).length },
         log ++ rangeFrom n (server.length - n + 1)) := by
  intro fuel
  induction fuel with
  | zero => intro n s acc log _ hfuel; omega
  | succ fuel ih =>
    intro n s acc log hinv hfuel
    have hlk : s.pages.lookup n = Option.none := by
      rw [List.lookup_eq_none_iff]
      intro kv hkv
      rw [bne_iff_ne]
      exact Nat.ne_of_gt (hinv kv hkv)
    by_cases hn : server.length ≤ n
    · have hp : loadPage server n = [] := by
        unfold loadPage
        rw [List.getD_eq_getElem?_getD, List.getElem?_eq_none hn]
        rfl
      have hdrop : server.drop n = [] := List.drop_eq_nil_of_le hn
      have hk : server.length - n + 1 = 1 := by omega
      have h0 : server.length - n = 0 := by omega
      simp [loadLoop, getPage, hlk, hp, hdrop, hk, h0, rangeFrom, enumFrom]
    · have hn' : n < server.length := Nat.lt_of_not_le hn
      have hp : loadPage server n = server[n] := by
        unfold loadPage
        rw [List.getD_eq_getElem?_getD, List.getElem?_eq_getElem hn']
        rfl
      have hpne : server[n].isEmpty = false :=
        List.isEmpty_eq_false.mpr (hne _ (List.getElem_mem hn'))
      have hrec := ih (n + 1) { s with pages := s.pages ++ [(n, server[n])] }
        (acc ++ server[n]) (log ++ [n])
        (by
          intro kv hkv
          rw [List.mem_append] at hkv
          rcases hkv with hkv | hkv
          · exact Nat.lt_succ_of_lt (hinv kv hkv)
          · rw [List.mem_singleton] at hkv
            rw [hkv]
            exact Nat.lt_succ_self n)
        (by omega)
      have hk : server.length - n + 1 = (server.length - (n + 1) + 1) + 1 := by omega
      simp only [loadLoop, getPage, hlk, hp, hpne, Bool.false_eq_true, if_false, hrec]
      have hdc : server[n] :: List.drop (n + 1) server = List.drop n server :=
        (List.drop_eq_getElem_cons hn').symm
      have hflat : server[n] ++ (List.drop (n + 1) server).flatten =
          (List.drop n server).flatten := by
        rw [← hdc, List.flatten_cons]
      have hpages : (n, server[n]) :: enumFrom (n + 1) (List.drop (n + 1) server) =
          enumFrom n (List.drop n server) := by
        rw [← hdc]
        rfl
      have hrange : n :: rangeFrom (n + 1) (server.length - (n + 1) + 1) =
          rangeFrom n (server.length - n + 1) := by
        rw [hk]
        rfl
      rw [List.append_assoc acc, hflat, List.append_assoc s.pages, List.append_assoc log,
        List.singleton_append, List.singleton_append, hpages, hrange]

theorem loadAllPages_fresh {α : Type} (server : List (List α))
    (hne : ∀ p ∈ server, p ≠ []) :
    loadAllPages server (freshPState : PState α) =
      (materialized server, rangeFrom 0 (server.length + 1)) := by
  unfold loadAllPages freshPState
  rw [loadLoop_spec server hne _ 0 _ [] [] (by intro kv hkv; cases hkv) (by simp)]
  simp [materialized]

theorem join_ne_nil_of_parts {α : Type} (server : List (List α)) (hs : server ≠ [])
    (hne : ∀ p ∈ server, p ≠ []) : server.flatten ≠ [] := by
  cases server with
  | nil => exact absurd rfl hs
  | cons p rest =>
    have hp : p ≠ [] := hne p (List.mem_cons_self p rest)
    cases p with
    | nil => exact absurd rfl hp
    | cons x xs => simp

theorem ensureAllPages_fresh {α : Type} (server : List (List α))
    (hne : ∀ p ∈ server, p ≠ []) :
    ensureAllPages server (freshPState : PState α) =
      (materialized server, rangeFrom 0 (server.length + 1)) := by
  unfold ensureAllPages freshPState
  exact loadAllPages_fresh server hne

theorem ensureAllPages_materialized {α : Type} (server : List (List α)) (hs : server ≠ [])
    (hne : ∀ p ∈ server, p ≠ []) :
    ensureAllPages server (materialized server) = (materialized server, []) := by
  have hj := join_ne_nil_of_parts server hs hne
  unfold ensureAllPages materialized
  cases hjj : server.flatten with
  | nil => exact absurd hjj hj
  | cons x xs => simp [hjj]


/-- The page numbers a lazy page-aware skipping evaluation of the slice
`[start:stop]` would need: those whose item-index interval meets
`[start, stop)` — written from the claim's words (for positive `step` it
over-approximates by ignoring pages skipped over entirely, which only
strengthens the counterexample). -/
def pagesNeeded (sizes : List Nat) (start stop : Nat) : List Nat :=
  (List.range sizes.length).filter (fun p =>
    decide ((sizes.take p).sum < stop) && decide (start < (sizes.take p).sum + sizes.getD p 0))

/-- **C3** (counterexample): on a fresh two-page list (page sizes 1 and
1), taking the slice `[0:1]` — whose items lie entirely in page 0 —
nevertheless issues requests for pages 0, 1 and 2 (the end probe) and
fully materializes the list: `__getitem__` calls `ensure_all_pages()`
before it even looks at the key.  A lazy page-aware skipping evaluation
needs page 0 only, so the claim "slicing alone fetches no more pages
than needed" is false, as is "without forcing full materialization". -/
theorem c3_slice_not_lazy_counterexample :
    (getitemSlice [["a"], ["b"]] (freshPState : PState String) 0 1 1).2.2 = [0, 1, 2] ∧
    (getitemSlice [["a"], ["b"]] (freshPState : PState String) 0 1 1).2.1.objects =
      some ["a", "b"] ∧
    (getitemSlice [["a"], ["b"]] (freshPState : PState String) 0 1 1).1 = ["a"] ∧
    pagesNeeded [1, 1] 0 1 = [0] ∧
    ¬ ((getitemSlice [["a"], ["b"]] (freshPState : PState String) 0 1 1).2.2 ⊆
        pagesNeeded [1, 1] 0 1) :=
  ⟨rfl, rfl, rfl, rfl, by decide⟩

/-- **C3** (amended): on a fresh paged list over a server with at least
one page, all of them non-empty, *each* of slicing, `len` and integer
indexing triggers full materialization and issues exactly the same
requests — one `GET` per page plus the end probe (`rangeFrom 0
(pages+1)`); the slice value is computed from the fully materialized
`objects` (an `islice` over the sequence protocol), not by page-aware
skipping. -/
theorem c3_slice_len_index_all_materialize {α : Type} (server : List (List α))
    (hs : server ≠ []) (hne : ∀ p ∈ server, p ≠ []) (start stop step : Nat) (key : Int) :
    getitemSlice server (freshPState : PState α) start stop step =
      (sliceElems server.flatten (min start server.flatten.length)
        (min stop server.flatten.length) step,
       materialized server, rangeFrom 0 (server.length + 1)) ∧
    pyLen server (freshPState : PState α) =
      (server.flatten.length, materialized server, rangeFrom 0 (server.length + 1)) ∧
    (getitemInt server (freshPState : PState α) key).2.1 = materialized server ∧
    (getitemInt server (freshPState : PState α) key).2.2 =
      rangeFrom 0 (server.length + 1) := by
  have hef := ensureAllPages_fresh server hne
  have hem := ensureAllPages_materialized server hs hne
  have hlen : pyLen server (freshPState : PState α) =
      (server.flatten.length, materialized server, rangeFrom 0 (server.length + 1)) := by
    unfold pyLen
    rw [hef]
    rfl
  have hlenm : pyLen server (materialized server) =
      (server.flatten.length, materialized server, []) := by
    unfold pyLen
    rw [hem]
    rfl
  have hobj : (materialized server).objects = some server.flatten := rfl
  refine ⟨?_, hlen, ?_, ?_⟩
  · simp only [getitemSlice, hef, hlenm, hobj, List.append_nil]
  · simp only [getitemInt, hef, hlenm]
    by_cases hkey : key < 0
    · rw [if_pos hkey]
    · rw [if_neg hkey]
  · simp only [getitemInt, hef, hlenm]
    by_cases hkey : key < 0
    · rw [if_pos hkey]
      simp
    · rw [if_neg hkey]

/-- Closed instance of `c3_slice_len_index_all_materialize` on the
two-page server. -/
theorem c3_slice_len_index_all_materialize_witness :
    pyLen [["a"], ["b"]] (freshPState : PState String) =
      (2, materialized [["a"], ["b"]], [0, 1, 2]) ∧
    (getitemInt [["a"], ["b"]] (freshPState : PState String) (-1)).2.2 = [0, 1, 2] :=
  ⟨(c3_slice_len_index_all_materialize [["a"], ["b"]] (by decide) (by decide) 0 1 1 (-1)).2.1,
   (c3_slice_len_index_all_materialize [["a"], ["b"]] (by decide) (by decide) 0 1 1
      (-1)).2.2.2⟩


/-! ### Claim C10 — `Model.update` mutates the caller's dictionary -/

/-- The relation between a caller's field entry and its in-place-coerced
replacement. -/
def CoercedEntry (meta : Meta) (kvf kvc : String × PyVal) : Prop :=
  kvc.1 = kvf.1 ∧ coerceField meta kvf.1 kvf.2 = some kvc.2

theorem coerceFields_forall2 (meta : Meta) :
    ∀ fields cf : Dict, coerceFields meta fields = some cf →
      List.Forall₂ (CoercedEntry meta) fields cf := by
  intro fields
  induction fields with
  | nil =>
    intro cf h
    cases h
    exact List.Forall₂.nil
  | cons kv rest ih =>
    intro cf h
    simp only [coerceFields] at h
    cases hc : coerceField meta kv.1 kv.2 with
    | none => rw [hc] at h; cases h
    | some v =>
      rw [hc] at h
      cases ht : coerceFields meta rest with
      | none => rw [ht] at h; cases h
      | some tl =>
        rw [ht] at h
        cases h
        exact List.Forall₂.cons ⟨rfl, hc⟩ (ih tl ht)

theorem coerceFields_total (meta : Meta) :
    ∀ fields : Dict, (∀ kv ∈ fields, ∃ cv, coerceField meta kv.1 kv.2 = some cv) →
      ∃ cf, coerceFields meta fields = some cf := by
  intro fields
  induction fields with
  | nil => exact fun _ => ⟨[], rfl⟩
  | cons kv rest ih =>
    intro h
    obtain ⟨cv, hcv⟩ := h kv (List.mem_cons_self kv rest)
    obtain ⟨tl, htl⟩ := ih (fun x hx => h x (List.mem_cons_of_mem kv hx))
    exact ⟨(kv.1, cv) :: tl, by simp only [coerceFields, hcv, htl]; rfl⟩

/-- **C10**: `Model.update(fields)` rewrites the caller's dictionary in
place — the call's result carries the mutated `fields` dict, whose
entries are, key by key and in order, the coercion of the caller's
entries (every truthy string under a `_at`/`_on`/`_due`/`_date` suffix
or a declared decimal field is replaced by its parsed value); and the
mutation is real: coercing `{'paid_at': '2023-01-02'}` replaces the
string with a datetime object, a different value. -/
theorem c10_update_coerces_caller_dict_in_place (meta : Meta) (selfDict fields cf : Dict)
    (h : coerceFields meta fields = some cf) :
    modelUpdate meta selfDict fields = some (dictMerge selfDict cf, cf) ∧
    List.Forall₂ (CoercedEntry meta) fields cf ∧
    (coerceFields subjectMeta [("paid_at", PyVal.str "2023-01-02")] =
        some [("paid_at", PyVal.dtime ⟨2023, 1, 2, 0, 0, 0⟩)] ∧
      PyVal.dtime ⟨2023, 1, 2, 0, 0, 0⟩ ≠ PyVal.str "2023-01-02") := by
  refine ⟨?_, coerceFields_forall2 meta fields cf h, rfl, fun hh => PyVal.noConfusion hh⟩
  simp only [modelUpdate, h]
  rfl

/-- Closed instance of `c10_update_coerces_caller_dict_in_place` at the
dictionary `{'paid_at': '2023-01-02', 'name': 'X'}`. -/
theorem c10_update_coerces_caller_dict_in_place_witness :
    modelUpdate subjectMeta [] [("paid_at", PyVal.str "2023-01-02"), ("name", PyVal.str "X")] =
      some (dictMerge [] [("paid_at", PyVal.dtime ⟨2023, 1, 2, 0, 0, 0⟩),
              ("name", PyVal.str "X")],
            [("paid_at", PyVal.dtime ⟨2023, 1, 2, 0, 0, 0⟩), ("name", PyVal.str "X")]) ∧
    List.Forall₂ (CoercedEntry subjectMeta)
      [("paid_at", PyVal.str "2023-01-02"), ("name", PyVal.str "X")]
      [("paid_at", PyVal.dtime ⟨2023, 1, 2, 0, 0, 0⟩), ("name", PyVal.str "X")] :=
  ⟨(c10_update_coerces_caller_dict_in_place subjectMeta []
      [("paid_at", PyVal.str "2023-01-02"), ("name", PyVal.str "X")]
      [("paid_at", PyVal.dtime ⟨2023, 1, 2, 0, 0, 0⟩), ("name", PyVal.str "X")] rfl).1,
   (c10_update_coerces_caller_dict_in_place subjectMeta []
      [("paid_at", PyVal.str "2023-01-02"), ("name", PyVal.str "X")]
      [("paid_at", PyVal.dtime ⟨2023, 1, 2, 0, 0, 0⟩), ("name", PyVal.str "X")] rfl).2.1⟩


/-! ### Round trips of the modelled third-party parsers (towards C7) -/

def PyDate.Valid (d : PyDate) : Prop :=
  1 ≤ d.year ∧ d.year ≤ 9999 ∧ 1 ≤ d.month ∧ d.month ≤ 12 ∧ 1 ≤ d.day ∧ d.day ≤ 31

def PyDateTime.Valid (t : PyDateTime) : Prop :=
  1 ≤ t.year ∧ t.year ≤ 9999 ∧ 1 ≤ t.month ∧ t.month ≤ 12 ∧ 1 ≤ t.day ∧ t.day ≤ 31 ∧
    t.hour ≤ 23 ∧ t.minute ≤ 59 ∧ t.second ≤ 59

theorem digitChar_facts :
    ∀ d, d < 10 → charVal (digitChar d) = some d ∧ digitChar d ≠ '-' ∧ digitChar d ≠ '+' ∧
      digitChar d ≠ '.' := by decide

theorem charVal_lt (c : Char) (k : Nat) (h : charVal c = some k) : k < 10 := by
  unfold charVal at h
  split at h
  · rename_i hc
    injection h with h
    omega
  · cases h

theorem read2_digits (a b : Nat) (ha : a < 10) (hb : b < 10) :
    read2 (digitChar a) (digitChar b) = some (10 * a + b) := by
  simp [read2, (digitChar_facts a ha).1, (digitChar_facts b hb).1]

theorem read4_digits (a b c d : Nat) (ha : a < 10) (hb : b < 10) (hc : c < 10)
    (hd : d < 10) :
    read4 (digitChar a) (digitChar b) (digitChar c) (digitChar d) =
      some (100 * (10 * a + b) + (10 * c + d)) := by
  simp [read4, read2_digits a b ha hb, read2_digits c d hc hd]

theorem mkDateTime_eq_some (y mo d h mi s : Nat) (t : PyDateTime)
    (hm : mkDateTime y mo d h mi s = some t) : t = ⟨y, mo, d, h, mi, s⟩ ∧ t.Valid := by
  unfold mkDateTime at hm
  split at hm
  · rename_i hcond
    injection hm with hm
    subst hm
    exact ⟨rfl, hcond⟩
  · cases hm

theorem mkDateTime_of_valid (t : PyDateTime) (h : t.Valid) :
    mkDateTime t.year t.month t.day t.hour t.minute t.second = some t := by
  unfold PyDateTime.Valid at h
  unfold mkDateTime
  rw [if_pos h]

theorem pyParse_isoDateTime (t : PyDateTime) (h : t.Valid) :
    pyParse (isoDateTime t) = some t := by
  obtain ⟨hy1, hy2, hm1, hm2, hd1, hd2, hh, hmi, hs⟩ := h
  show parseDateTimeChars (isoDateTimeChars t) = some t
  unfold isoDateTimeChars pad4 pad2
  simp only [List.cons_append, List.nil_append, parseDateTimeChars, reduceIte]
  rw [read4_digits _ _ _ _ (by omega) (by omega) (by omega) (by omega)]
  simp only [Option.bind_eq_bind, Option.some_bind]
  rw [read2_digits _ _ (by omega) (by omega)]
  simp only [Option.some_bind]
  rw [read2_digits _ _ (by omega) (by omega)]
  simp only [Option.some_bind]
  rw [read2_digits _ _ (by omega) (by omega)]
  simp only [Option.some_bind]
  rw [read2_digits _ _ (by omega) (by omega)]
  simp only [Option.some_bind]
  rw [read2_digits _ _ (by omega) (by omega)]
  simp only [Option.some_bind]
  have e1 : 100 * (10 * (t.year / 1000) + t.year / 100 % 10) +
      (10 * (t.year / 10 % 10) + t.year % 10) = t.year := by omega
  have e2 : 10 * (t.month / 10) + t.month % 10 = t.month := by omega
  have e3 : 10 * (t.day / 10) + t.day % 10 = t.day := by omega
  have e4 : 10 * (t.hour / 10) + t.hour % 10 = t.hour := by omega
  have e5 : 10 * (t.minute / 10) + t.minute % 10 = t.minute := by omega
  have e6 : 10 * (t.second / 10) + t.second % 10 = t.second := by omega
  rw [e1, e2, e3, e4, e5, e6]
  exact mkDateTime_of_valid t ⟨hy1, hy2, hm1, hm2, hd1, hd2, hh, hmi, hs⟩

theorem pyParse_isoDate (d : PyDate) (h : d.Valid) :
    pyParse (isoDate d) = some (midnightOf d) := by
  obtain ⟨hy1, hy2, hm1, hm2, hd1, hd2⟩ := h
  show parseDateTimeChars (isoDateChars d) = some (midnightOf d)
  unfold isoDateChars pad4 pad2
  simp only [List.cons_append, List.nil_append, parseDateTimeChars, reduceIte]
  rw [read4_digits _ _ _ _ (by omega) (by omega) (by omega) (by omega)]
  simp only [Option.bind_eq_bind, Option.some_bind]
  rw [read2_digits _ _ (by omega) (by omega)]
  simp only [Option.some_bind]
  rw [read2_digits _ _ (by omega) (by omega)]
  simp only [Option.some_bind]
  have e1 : 100 * (10 * (d.year / 1000) + d.year / 100 % 10) +
      (10 * (d.year / 10 % 10) + d.year % 10) = d.year := by omega
  have e2 : 10 * (d.month / 10) + d.month % 10 = d.month := by omega
  have e3 : 10 * (d.day / 10) + d.day % 10 = d.day := by omega
  rw [e1, e2, e3]
  have : mkDateTime d.year d.month d.day 0 0 0 = some (midnightOf d) :=
    mkDateTime_of_valid (midnightOf d) ⟨hy1, hy2, hm1, hm2, hd1, hd2, Nat.zero_le _,
      Nat.zero_le _, Nat.zero_le _⟩
  exact this

theorem pyParse_valid (s : String) (t : PyDateTime) (h : pyParse s = some t) : t.Valid := by
  unfold pyParse at h
  unfold parseDateTimeChars at h
  split at h
  · split at h
    · simp only [Option.bind_eq_bind, Option.bind_eq_some] at h
      obtain ⟨y, _, mo, _, d, _, hmk⟩ := h
      exact (mkDateTime_eq_some _ _ _ _ _ _ t hmk).2
    · cases h
  · split at h
    · simp only [Option.bind_eq_bind, Option.bind_eq_some] at h
      obtain ⟨y, _, mo, _, d, _, hh, _, hmi, _, hs, _, hmk⟩ := h
      exact (mkDateTime_eq_some _ _ _ _ _ _ t hmk).2
    · cases h
  · cases h


/-- Canonical form of a fixed-point `Decimal` as produced by parsing:
digit lists in range, a non-empty integer part without a leading zero
(except for zero itself). -/
def PyDecimal.Canonical (q : PyDecimal) : Prop :=
  (∀ k ∈ q.ip, k < 10) ∧ (∀ k ∈ q.fp, k < 10) ∧ q.ip ≠ [] ∧
    (q.ip.head? = some 0 → q.ip = [0])

theorem digitsOf_digitsChars : ∀ ds, (∀ k ∈ ds, k < 10) →
    digitsOf (digitsChars ds) = some ds := by
  intro ds
  induction ds with
  | nil => intro _; rfl
  | cons d t ih =>
    intro h
    have hd := (digitChar_facts d (h d (List.mem_cons_self d t))).1
    have iht := ih (fun k hk => h k (List.mem_cons_of_mem d hk))
    simp only [digitsChars] at iht
    simp [digitsChars, digitsOf, hd, iht]

theorem digitsOf_lt : ∀ cs ds, digitsOf cs = some ds → ∀ k ∈ ds, k < 10 := by
  intro cs
  induction cs with
  | nil =>
    intro ds h k hk
    cases h
    cases hk
  | cons c t ih =>
    intro ds h k hk
    simp only [digitsOf, Option.bind_eq_bind, Option.bind_eq_some] at h
    obtain ⟨d, hd, tl, htl, hds⟩ := h
    cases hds
    rcases List.mem_cons.mp hk with hk | hk
    · subst hk
      exact charVal_lt c k hd
    · exact ih tl htl k hk

theorem digitsChars_not_dot : ∀ ds, (∀ k ∈ ds, k < 10) →
    (digitsChars ds).contains '.' = false := by
  intro ds
  induction ds with
  | nil => intro _; rfl
  | cons d t ih =>
    intro h
    have hd := (digitChar_facts d (h d (List.mem_cons_self d t))).2.2.2
    simp only [digitsChars, List.map_cons, List.contains_cons, Bool.or_eq_false_iff]
    exact ⟨beq_eq_false_iff_ne.mpr (fun hh => hd hh.symm),
      ih (fun k hk => h k (List.mem_cons_of_mem d hk))⟩

theorem splitSign_digit (d : Nat) (hd : d < 10) (cs : List Char) :
    splitSign (digitChar d :: cs) = (false, digitChar d :: cs) := by
  simp only [splitSign]
  rw [if_neg (digitChar_facts d hd).2.1, if_neg (digitChar_facts d hd).2.2.1]

theorem splitDot_digits : ∀ ds, (∀ k ∈ ds, k < 10) →
    splitDot (digitsChars ds) = some (digitsChars ds, []) ∧
    ∀ fs, (∀ k ∈ fs, k < 10) →
      splitDot (digitsChars ds ++ '.' :: digitsChars fs) =
        some (digitsChars ds, digitsChars fs) := by
  intro ds
  induction ds with
  | nil =>
    intro _
    refine ⟨rfl, fun fs hfs => ?_⟩
    show splitDot ('.' :: digitsChars fs) = some ([], digitsChars fs)
    simp only [splitDot, reduceIte]
    rw [if_neg (fun hh => Bool.false_ne_true ((digitsChars_not_dot fs hfs) ▸ hh))]
  | cons d t ih =>
    intro h
    have hd := (digitChar_facts d (h d (List.mem_cons_self d t))).2.2.2
    have iht := ih (fun k hk => h k (List.mem_cons_of_mem d hk))
    constructor
    · show splitDot (digitChar d :: digitsChars t) = _
      simp only [splitDot]
      rw [if_neg hd, iht.1]
      rfl
    · intro fs hfs
      show splitDot (digitChar d :: (digitsChars t ++ '.' :: digitsChars fs)) = _
      simp only [splitDot]
      rw [if_neg hd, iht.2 fs hfs]
      rfl

theorem normIp_ne_nil (ds : List Nat) : normIp ds ≠ [] := by
  unfold normIp
  cases h : ds.dropWhile (fun k => k = 0) with
  | nil => exact fun hh => List.noConfusion hh
  | cons a l => exact fun hh => List.noConfusion hh

theorem normIp_lt (ds : List Nat) (h : ∀ k ∈ ds, k < 10) : ∀ k ∈ normIp ds, k < 10 := by
  unfold normIp
  cases hdw : ds.dropWhile (fun k => k = 0) with
  | nil =>
    intro k hk
    rw [List.mem_singleton] at hk
    omega
  | cons a l =>
    intro k hk
    have hsub : List.Sublist (a :: l) ds :=
      hdw ▸ List.dropWhile_sublist (l := ds) (p := fun k => decide (k = 0))
    exact h k (hsub.mem hk)

theorem normIp_head : ∀ ds : List Nat, (normIp ds).head? = some 0 → normIp ds = [0] := by
  intro ds
  induction ds with
  | nil => intro _; rfl
  | cons b t ih =>
    by_cases hb : b = 0
    · have hred : normIp (b :: t) = normIp t := by
        unfold normIp
        rw [List.dropWhile_cons, if_pos (by simp [hb])]
      rw [hred]
      exact ih
    · have hred : normIp (b :: t) = b :: t := by
        unfold normIp
        rw [List.dropWhile_cons, if_neg (by simp [hb])]
      rw [hred]
      intro hh
      simp only [List.head?_cons, Option.some.injEq] at hh
      exact absurd hh hb

theorem normIp_keep (ds : List Nat) (hne : ds ≠ []) (hld : ds.head? = some 0 → ds = [0]) :
    normIp ds = ds := by
  cases ds with
  | nil => exact absurd rfl hne
  | cons b t =>
    by_cases hb : b = 0
    · have h01 : b :: t = [0] := hld (by rw [hb]; rfl)
      rw [h01]
      rfl
    · unfold normIp
      rw [List.dropWhile_cons, if_neg (by simp [hb])]

theorem parseDecimal_canonical (s : String) (q : PyDecimal)
    (h : parseDecimal s = some q) : q.Canonical := by
  simp only [parseDecimal] at h
  split at h
  · cases h
  · rename_i ipCs fpCs hsd
    split at h
    · cases h
    · simp only [Option.bind_eq_bind, Option.bind_eq_some] at h
      obtain ⟨ipDs, hip, tl, htl, hq⟩ := h
      cases hq
      exact ⟨normIp_lt _ (digitsOf_lt _ _ hip), digitsOf_lt _ _ htl, normIp_ne_nil _,
        normIp_head _⟩


theorem parseDecimal_decString (q : PyDecimal) (hq : q.Canonical) :
    parseDecimal (decString q) = some q := by
  obtain ⟨neg, ip, fp⟩ := q
  obtain ⟨hip, hfp, hne, hld⟩ := hq
  have hsd : splitDot (digitsChars ip ++ (if fp.isEmpty then [] else '.' :: digitsChars fp)) =
      some (digitsChars ip, digitsChars fp) := by
    cases fp with
    | nil =>
      simp only [List.isEmpty_nil, reduceIte, List.append_nil]
      exact (splitDot_digits ip hip).1
    | cons f fs =>
      simp only [List.isEmpty_cons, reduceIte]
      exact (splitDot_digits ip hip).2 (f :: fs) hfp
  have hsp : splitSign ((if neg then ['-'] else []) ++ (digitsChars ip ++
        (if fp.isEmpty then [] else '.' :: digitsChars fp))) =
      (neg, digitsChars ip ++ (if fp.isEmpty then [] else '.' :: digitsChars fp)) := by
    cases neg with
    | true =>
      simp only [reduceIte, List.cons_append, List.nil_append, splitSign]
    | false =>
      simp only [Bool.false_eq_true, if_false, List.nil_append]
      cases ip with
      | nil => exact absurd rfl hne
      | cons d ds =>
        have hd := hip d (List.mem_cons_self d ds)
        simp only [digitsChars, List.map_cons, List.cons_append]
        have := splitSign_digit d hd (List.map digitChar ds ++
          (if fp.isEmpty then [] else '.' :: digitsChars fp))
        simp only [digitsChars] at this
        exact this
  have hipe : (digitsChars ip).isEmpty = false := by
    cases ip with
    | nil => exact absurd rfl hne
    | cons d ds => rfl
  have htl : (decString ⟨neg, ip, fp⟩).toList =
      (if neg then ['-'] else []) ++ (digitsChars ip ++
        (if fp.isEmpty then [] else '.' :: digitsChars fp)) := by
    show (String.mk (decChars ⟨neg, ip, fp⟩)).toList = _
    simp only [decChars, List.append_assoc]
    rfl
  simp only [parseDecimal, htl, hsp, hsd]
  rw [if_neg (fun hh => Bool.false_ne_true (hipe ▸ hh.1))]
  rw [digitsOf_digitsChars ip hip]
  simp only [Option.bind_eq_bind, Option.some_bind]
  rw [digitsOf_digitsChars fp hfp]
  simp only [Option.some_bind]
  rw [normIp_keep ip hne hld]
  rfl


/-! ### Serialization is idempotent; coercion-serialization stability -/

mutual

theorem serializeFieldValue_idem (f : String) : ∀ v : PyVal,
    serializeFieldValue f (serializeFieldValue f v) = serializeFieldValue f v
  | .list xs => by
    simp only [serializeFieldValue]
    rw [serializeValues_idem f 0 xs]
  | .dec d => rfl
  | .date d => rfl
  | .dtime t => rfl
  | .str s => rfl
  | .int n => rfl
  | .bool b => rfl
  | .none => rfl
  | .dict kvs => rfl

theorem serializeValues_idem (f : String) : ∀ (i : Nat) (xs : List PyVal),
    serializeValues f i (serializeValues f i xs) = serializeValues f i xs
  | _, [] => rfl
  | i, x :: xs => by
    simp only [serializeValues]
    rw [serializeFieldValue_idem (f ++ "." ++ toString i) x, serializeValues_idem f (i + 1) xs]

end

/-- The values a field may hold for the `get_fields`/constructor round
trip to be stable: under a coercing field name the value must be a string
the respective parser accepts (or the empty string), or already of the
coerced type and within the parser's validation ranges; under other
names anything goes. -/
def coherent (meta : Meta) (f : String) (v : PyVal) : Prop :=
  if strEndsWith f "_at" = true then
    match v with
    | .str s => s.toList = [] ∨ ∃ t, pyParse s = some t
    | .date _ => False
    | .dec _ => False
    | .dtime t => t.Valid
    | _ => True
  else if (strEndsWith f "_on" || strEndsWith f "_due" || strEndsWith f "_date") = true then
    match v with
    | .str s => s.toList = [] ∨ ∃ t, pyParse s = some t
    | .dtime _ => False
    | .dec _ => False
    | .date d => d.Valid
    | _ => True
  else if meta.decimal.contains f = true then
    match v with
    | .str s => s.toList = [] ∨ ∃ q, parseDecimal s = some q
    | .date _ => False
    | .dtime _ => False
    | .dec q => q.Canonical
    | _ => True
  else True

theorem pyParse_some_ne_nil (s : String) (t : PyDateTime) (h : pyParse s = some t) :
    s.toList ≠ [] := by
  intro hl
  unfold pyParse at h
  rw [hl] at h
  cases h

theorem pyTruthy_of_ne_nil (s : String) (h : s.toList ≠ []) :
    pyTruthy (.str s) = true := by
  simp only [pyTruthy, Bool.not_eq_true', List.isEmpty_eq_false]
  exact h

theorem PyDateTime.toDate_valid (t : PyDateTime) (h : t.Valid) : t.toDate.Valid := by
  obtain ⟨h1, h2, h3, h4, h5, h6, _, _, _⟩ := h
  exact ⟨h1, h2, h3, h4, h5, h6⟩

theorem isoDateTime_toList_ne_nil (t : PyDateTime) : (isoDateTime t).toList ≠ [] := by
  intro h
  cases h

theorem isoDate_toList_ne_nil (d : PyDate) : (isoDate d).toList ≠ [] := by
  intro h
  cases h

theorem decString_toList_ne_nil (q : PyDecimal) (h : q.ip ≠ []) :
    (decString q).toList ≠ [] := by
  obtain ⟨neg, ip, fp⟩ := q
  cases neg with
  | true => intro hh; cases hh
  | false =>
    cases ip with
    | nil => exact absurd rfl h
    | cons d ds => intro hh; cases hh

theorem coerceField_nonstr (meta : Meta) (f : String) (v : PyVal)
    (h : ∀ s, v ≠ .str s) : coerceField meta f v = some v := by
  cases v with
  | str s => exact absurd rfl (h s)
  | int n => rfl
  | bool b => rfl
  | none => rfl
  | dec d => rfl
  | date d => rfl
  | dtime t => rfl
  | list xs => rfl
  | dict kvs => rfl

/-- `coerceField` on a truthy string under an `_at` name. -/
theorem coerceField_str_at (meta : Meta) (f : String) (s : String)
    (hat : strEndsWith f "_at" = true) (hs : pyTruthy (.str s) = true) :
    coerceField meta f (.str s) = (pyParse s).map .dtime := by
  simp only [coerceField, hs, hat, reduceIte, if_true]

theorem coerceField_str_on (meta : Meta) (f : String) (s : String)
    (hat : strEndsWith f "_at" = false)
    (hon : (strEndsWith f "_on" || strEndsWith f "_due" || strEndsWith f "_date") = true)
    (hs : pyTruthy (.str s) = true) :
    coerceField meta f (.str s) = (pyParse s).map (fun t => .date t.toDate) := by
  simp only [coerceField, hs, hat, hon, Bool.false_eq_true, if_false, if_true]

theorem coerceField_str_dec (meta : Meta) (f : String) (s : String)
    (hat : strEndsWith f "_at" = false)
    (hon : (strEndsWith f "_on" || strEndsWith f "_due" || strEndsWith f "_date") = false)
    (hdec : meta.decimal.contains f = true) (hs : pyTruthy (.str s) = true) :
    coerceField meta f (.str s) = (parseDecimal s).map .dec := by
  simp only [coerceField, hs, hat, hon, hdec, Bool.false_eq_true, if_false, if_true]

theorem coerceField_str_plain (meta : Meta) (f : String) (s : String)
    (hat : strEndsWith f "_at" = false)
    (hon : (strEndsWith f "_on" || strEndsWith f "_due" || strEndsWith f "_date") = false)
    (hdec : meta.decimal.contains f = false) :
    coerceField meta f (.str s) = some (.str s) := by
  by_cases hs : pyTruthy (.str s) = true
  · simp only [coerceField, hs, hat, hon, hdec, Bool.false_eq_true, if_false, if_true]
  · simp only [coerceField, Bool.not_eq_true] at hs ⊢
    rw [hs]
    simp only [Bool.false_eq_true, if_false]

theorem coerceField_str_falsy (meta : Meta) (f : String) (s : String)
    (hs : pyTruthy (.str s) = false) :
    coerceField meta f (.str s) = some (.str s) := by
  simp only [coerceField, hs, Bool.false_eq_true, if_false]


theorem coerceField_plain_any (meta : Meta) (f : String)
    (hat : strEndsWith f "_at" = false)
    (hon : (strEndsWith f "_on" || strEndsWith f "_due" || strEndsWith f "_date") = false)
    (hdec : meta.decimal.contains f = false) (w : PyVal) :
    coerceField meta f w = some w := by
  cases w with
  | str s => exact coerceField_str_plain meta f s hat hon hdec
  | int n => rfl
  | bool b => rfl
  | none => rfl
  | dec d => rfl
  | date d => rfl
  | dtime t => rfl
  | list xs => rfl
  | dict kvs => rfl

/-- A coherent value coerces successfully, and the coerce–serialize pipe
is stable: serializing, re-coercing and re-serializing reproduces the
first serialization. -/
theorem coerce_serialize_stable (meta : Meta) (f : String) (v : PyVal)
    (hc : coherent meta f v) :
    ∃ cv, coerceField meta f v = some cv ∧
      ∃ cv2, coerceField meta f (serializeFieldValue f cv) = some cv2 ∧
        serializeFieldValue f cv2 = serializeFieldValue f cv := by
  by_cases hat : strEndsWith f "_at" = true
  · unfold coherent at hc
    rw [if_pos hat] at hc
    cases v with
    | str s =>
      rcases hc with hempty | ⟨t, hparse⟩
      · have hs : pyTruthy (.str s) = false := by
          simp [pyTruthy]
          exact hempty
        exact ⟨.str s, coerceField_str_falsy _ _ _ hs, .str s,
          coerceField_str_falsy _ _ _ hs, rfl⟩
      · have hs := pyTruthy_of_ne_nil s (pyParse_some_ne_nil s t hparse)
        refine ⟨.dtime t, ?_, .dtime t, ?_, rfl⟩
        · rw [coerceField_str_at meta f s hat hs, hparse]
          rfl
        · show coerceField meta f (.str (isoDateTime t)) = some (.dtime t)
          rw [coerceField_str_at meta f _ hat
              (pyTruthy_of_ne_nil _ (isoDateTime_toList_ne_nil t)),
            pyParse_isoDateTime t (pyParse_valid s t hparse)]
          rfl
    | dtime t =>
      refine ⟨.dtime t, rfl, .dtime t, ?_, rfl⟩
      show coerceField meta f (.str (isoDateTime t)) = some (.dtime t)
      rw [coerceField_str_at meta f _ hat
          (pyTruthy_of_ne_nil _ (isoDateTime_toList_ne_nil t)),
        pyParse_isoDateTime t hc]
      rfl
    | date d => exact hc.elim
    | dec q => exact hc.elim
    | int n => exact ⟨_, rfl, _, rfl, rfl⟩
    | bool b => exact ⟨_, rfl, _, rfl, rfl⟩
    | none => exact ⟨_, rfl, _, rfl, rfl⟩
    | dict kvs => exact ⟨_, rfl, _, rfl, rfl⟩
    | list xs => exact ⟨.list xs, rfl, .list (serializeValues f 0 xs), rfl,
        serializeFieldValue_idem f (.list xs)⟩
  · rw [Bool.not_eq_true] at hat
    by_cases hon : (strEndsWith f "_on" || strEndsWith f "_due" ||
        strEndsWith f "_date") = true
    · unfold coherent at hc
      rw [if_neg (fun h => Bool.false_ne_true (hat ▸ h)), if_pos hon] at hc
      cases v with
      | str s =>
        rcases hc with hempty | ⟨t, hparse⟩
        · have hs : pyTruthy (.str s) = false := by
            simp [pyTruthy]
            exact hempty
          exact ⟨.str s, coerceField_str_falsy _ _ _ hs, .str s,
            coerceField_str_falsy _ _ _ hs, rfl⟩
        · have hs := pyTruthy_of_ne_nil s (pyParse_some_ne_nil s t hparse)
          refine ⟨.date t.toDate, ?_, .date t.toDate, ?_, rfl⟩
          · rw [coerceField_str_on meta f s hat hon hs, hparse]
            rfl
          · show coerceField meta f (.str (isoDate t.toDate)) = some (.date t.toDate)
            rw [coerceField_str_on meta f _ hat hon
                (pyTruthy_of_ne_nil _ (isoDate_toList_ne_nil t.toDate)),
              pyParse_isoDate t.toDate (PyDateTime.toDate_valid t (pyParse_valid s t hparse))]
            rfl
      | date d =>
        refine ⟨.date d, rfl, .date d, ?_, rfl⟩
        show coerceField meta f (.str (isoDate d)) = some (.date d)
        rw [coerceField_str_on meta f _ hat hon
            (pyTruthy_of_ne_nil _ (isoDate_toList_ne_nil d)),
          pyParse_isoDate d hc]
        rfl
      | dtime t => exact hc.elim
      | dec q => exact hc.elim
      | int n => exact ⟨_, rfl, _, rfl, rfl⟩
      | bool b => exact ⟨_, rfl, _, rfl, rfl⟩
      | none => exact ⟨_, rfl, _, rfl, rfl⟩
      | dict kvs => exact ⟨_, rfl, _, rfl, rfl⟩
      | list xs => exact ⟨.list xs, rfl, .list (serializeValues f 0 xs), rfl,
          serializeFieldValue_idem f (.list xs)⟩
    · rw [Bool.not_eq_true] at hon
      by_cases hdec : meta.decimal.contains f = true
      · unfold coherent at hc
        rw [if_neg (fun h => Bool.false_ne_true (hat ▸ h)),
          if_neg (fun h => Bool.false_ne_true (hon ▸ h)), if_pos hdec] at hc
        cases v with
        | str s =>
          rcases hc with hempty | ⟨q, hparse⟩
          · have hs : pyTruthy (.str s) = false := by
              simp [pyTruthy]
              exact hempty
            exact ⟨.str s, coerceField_str_falsy _ _ _ hs, .str s,
              coerceField_str_falsy _ _ _ hs, rfl⟩
          · have hcan := parseDecimal_canonical s q hparse
            have hs : pyTruthy (.str s) = true := by
              have : s.toList ≠ [] := by
                intro hl
                rw [show s = String.mk s.toList from rfl, hl] at hparse
                cases hparse
              exact pyTruthy_of_ne_nil s this
            refine ⟨.dec q, ?_, .dec q, ?_, rfl⟩
            · rw [coerceField_str_dec meta f s hat hon hdec hs, hparse]
              rfl
            · show coerceField meta f (.str (decString q)) = some (.dec q)
              rw [coerceField_str_dec meta f _ hat hon hdec
                  (pyTruthy_of_ne_nil _ (decString_toList_ne_nil q hcan.2.2.1)),
                parseDecimal_decString q hcan]
              rfl
        | dec q =>
          refine ⟨.dec q, rfl, .dec q, ?_, rfl⟩
          show coerceField meta f (.str (decString q)) = some (.dec q)
          rw [coerceField_str_dec meta f _ hat hon hdec
              (pyTruthy_of_ne_nil _ (decString_toList_ne_nil q hc.2.2.1)),
            parseDecimal_decString q hc]
          rfl
        | date d => exact hc.elim
        | dtime t => exact hc.elim
        | int n => exact ⟨_, rfl, _, rfl, rfl⟩
        | bool b => exact ⟨_, rfl, _, rfl, rfl⟩
        | none => exact ⟨_, rfl, _, rfl, rfl⟩
        | dict kvs => exact ⟨_, rfl, _, rfl, rfl⟩
        | list xs => exact ⟨.list xs, rfl, .list (serializeValues f 0 xs), rfl,
            serializeFieldValue_idem f (.list xs)⟩
      · rw [Bool.not_eq_true] at hdec
        exact ⟨v, coerceField_plain_any meta f hat hon hdec v, serializeFieldValue f v,
          coerceField_plain_any meta f hat hon hdec _, serializeFieldValue_idem f v⟩


/-! ### Dictionary-level lemmas for the round trip -/

theorem dictSet_append (acc : Dict) (k : String) (v : PyVal)
    (h : ∀ kv ∈ acc, kv.1 ≠ k) : dictSet acc k v = acc ++ [(k, v)] := by
  unfold dictSet
  rw [if_neg]
  intro hh
  rw [List.any_eq_true] at hh
  obtain ⟨kv, hkv, he⟩ := hh
  rw [decide_eq_true_eq] at he
  exact h kv hkv he

theorem dictMerge_disjoint :
    ∀ l acc : Dict, (∀ kv ∈ l, ∀ kv2 ∈ acc, kv2.1 ≠ kv.1) →
      (l.map Prod.fst).Nodup → dictMerge acc l = acc ++ l := by
  intro l
  induction l with
  | nil =>
    intro acc _ _
    show acc = acc ++ []
    rw [List.append_nil]
  | cons kv rest ih =>
    intro acc h hnd
    have hnds : (kv.1 :: rest.map Prod.fst).Nodup := by
      simpa using hnd
    obtain ⟨hhead, hnd2⟩ := List.nodup_cons.mp hnds
    show dictMerge (dictSet acc kv.1 kv.2) rest = acc ++ kv :: rest
    rw [dictSet_append acc kv.1 kv.2
      (fun kv2 hkv2 => h kv (List.mem_cons_self kv rest) kv2 hkv2)]
    rw [ih (acc ++ [kv]) ?_ (by simpa using hnd2)]
    · rw [List.append_assoc, List.singleton_append]
    · intro kv3 hkv3 kv2 hkv2
      rcases List.mem_append.mp hkv2 with hkv2 | hkv2
      · exact h kv3 (List.mem_cons_of_mem kv hkv3) kv2 hkv2
      · rw [List.mem_singleton] at hkv2
        subst hkv2
        intro he
        exact hhead (he ▸ List.mem_map_of_mem Prod.fst hkv3)

theorem dictMerge_nil (l : Dict) (hnd : (l.map Prod.fst).Nodup) : dictMerge [] l = l := by
  rw [dictMerge_disjoint l [] (fun kv _ kv2 hkv2 => absurd hkv2 (List.not_mem_nil kv2)) hnd]
  rfl

theorem forall2_coerced_keys (meta : Meta) :
    ∀ l₁ l₂ : Dict, List.Forall₂ (CoercedEntry meta) l₁ l₂ →
      l₂.map Prod.fst = l₁.map Prod.fst := by
  intro l₁ l₂ h
  induction h with
  | nil => rfl
  | cons hab htail ih =>
    simp only [List.map_cons, ih, hab.1]

theorem forall2_mem {R : (String × PyVal) → (String × PyVal) → Prop} :
    ∀ {l₁ l₂ : Dict}, List.Forall₂ R l₁ l₂ → ∀ x ∈ l₁, ∃ y ∈ l₂, R x y := by
  intro l₁ l₂ h
  induction h with
  | nil => intro x hx; cases hx
  | cons hab htail ih =>
    intro x hx
    rcases List.mem_cons.mp hx with he | hx2
    · subst he
      exact ⟨_, List.mem_cons_self _ _, hab⟩
    · obtain ⟨y, hy, hr⟩ := ih x hx2
      exact ⟨y, List.mem_cons_of_mem _ hy, hr⟩

theorem forall2_mem_rev {R : (String × PyVal) → (String × PyVal) → Prop} :
    ∀ {l₁ l₂ : Dict}, List.Forall₂ R l₁ l₂ → ∀ y ∈ l₂, ∃ x ∈ l₁, R x y := by
  intro l₁ l₂ h
  induction h with
  | nil => intro y hy; cases hy
  | cons hab htail ih =>
    intro y hy
    rcases List.mem_cons.mp hy with he | hy2
    · subst he
      exact ⟨_, List.mem_cons_self _ _, hab⟩
    · obtain ⟨x, hx, hr⟩ := ih y hy2
      exact ⟨x, List.mem_cons_of_mem _ hx, hr⟩

theorem lookup_getFields_of_mem (meta : Meta) :
    ∀ d : Dict, (d.map Prod.fst).Nodup → ∀ k v, (k, v) ∈ d →
      modelIsFieldWritable meta k PyVal.none = true →
      (modelGetFields meta d).lookup k = some (serializeFieldValue k v) := by
  intro d
  induction d with
  | nil =>
    intro _ k v hm
    cases hm
  | cons kv rest ih =>
    intro hnd k v hm hw
    have hnds : (kv.1 :: rest.map Prod.fst).Nodup := by simpa using hnd
    obtain ⟨hhead, hnd2⟩ := List.nodup_cons.mp hnds
    rcases List.mem_cons.mp hm with he | hm2
    · have he1 : kv.1 = k := by rw [← he]
      have he2 : kv.2 = v := by rw [← he]
      simp only [modelGetFields, List.filterMap_cons]
      rw [show modelIsFieldWritable meta kv.1 kv.2 = true from he1 ▸ hw, if_pos rfl]
      simp only [List.lookup_cons]
      rw [show (k == kv.1) = true from beq_iff_eq.mpr he1.symm, he1, he2]
    · have hne : k ≠ kv.1 := by
        intro he
        exact hhead (he ▸ List.mem_map_of_mem Prod.fst hm2)
      have ihr := ih (by simpa using hnd2) k v hm2 hw
      simp only [modelGetFields, List.filterMap_cons] at ihr ⊢
      by_cases hw2 : modelIsFieldWritable meta kv.1 kv.2 = true
      · rw [hw2, if_pos rfl]
        simp only [List.lookup_cons]
        rw [show (k == kv.1) = false from beq_eq_false_iff_ne.mpr hne]
        exact ihr
      · rw [Bool.not_eq_true] at hw2
        rw [hw2]
        simp only [Bool.false_eq_true, if_false]
        exact ihr

theorem getFields_mem (meta : Meta) (d : Dict) (kv : String × PyVal)
    (h : kv ∈ modelGetFields meta d) :
    ∃ v, (kv.1, v) ∈ d ∧ modelIsFieldWritable meta kv.1 PyVal.none = true ∧
      kv.2 = serializeFieldValue kv.1 v := by
  rw [modelGetFields, List.mem_filterMap] at h
  obtain ⟨a, ha, hfa⟩ := h
  by_cases hw : modelIsFieldWritable meta a.1 a.2 = true
  · rw [if_pos hw] at hfa
    cases hfa
    exact ⟨a.2, ha, hw, rfl⟩
  · rw [if_neg hw] at hfa
    cases hfa

theorem getFields_keys_sublist (meta : Meta) :
    ∀ d : Dict, List.Sublist ((modelGetFields meta d).map Prod.fst) (d.map Prod.fst) := by
  intro d
  induction d with
  | nil => exact List.Sublist.refl _
  | cons kv rest ih =>
    simp only [modelGetFields, List.filterMap_cons] at ih ⊢
    by_cases hw : modelIsFieldWritable meta kv.1 kv.2 = true
    · rw [hw, if_pos rfl]
      exact List.Sublist.cons₂ kv.1 ih
    · rw [Bool.not_eq_true] at hw
      rw [hw]
      simp only [Bool.false_eq_true, if_false]
      exact List.Sublist.cons kv.1 ih

theorem getFields_of_stable (meta : Meta) :
    ∀ out cf2 : Dict, List.Forall₂ (CoercedEntry meta) out cf2 →
      (∀ kv ∈ out, modelIsFieldWritable meta kv.1 PyVal.none = true ∧
        ∀ cv2, coerceField meta kv.1 kv.2 = some cv2 →
          serializeFieldValue kv.1 cv2 = kv.2) →
      modelGetFields meta cf2 = out := by
  intro out cf2 h
  induction h with
  | nil => intro _; rfl
  | cons hab htail ih =>
    rename_i kv kvc rest restc
    intro hp
    obtain ⟨hkey, hco⟩ := hab
    obtain ⟨hw, hser⟩ := hp kv (List.mem_cons_self kv rest)
    simp only [modelGetFields, List.filterMap_cons]
    rw [show modelIsFieldWritable meta kvc.1 kvc.2 = true from hkey ▸ hw, if_pos rfl]
    have hser2 : serializeFieldValue kvc.1 kvc.2 = kv.2 := by
      rw [hkey]
      exact hser kvc.2 hco
    have : (kvc.1, serializeFieldValue kvc.1 kvc.2) = kv := by
      rw [hser2, hkey]
    rw [this]
    have ihr := ih (fun x hx => hp x (List.mem_cons_of_mem kv hx))
    simp only [modelGetFields] at ihr
    rw [ihr]


/-- **C7** (amended): constructing a model from a field dictionary (unique
keys, values coherent with their field names in the sense of `coherent`)
and serializing yields, for each writable field, exactly the
serialization of its coerced value (datetimes and dates back to ISO-8601
strings, decimals back to strings) — and repeating the round trip changes
nothing further: reconstructing from `get_fields()` output and
serializing again reproduces it verbatim. -/
theorem c7_roundtrip_stable (meta : Meta) (fields : Dict)
    (hnd : (fields.map Prod.fst).Nodup)
    (hcoh : ∀ kv ∈ fields, coherent meta kv.1 kv.2) :
    ∃ d, modelInit meta fields = some d ∧
      (∀ kv ∈ fields, modelIsFieldWritable meta kv.1 PyVal.none = true →
        ∃ cv, coerceField meta kv.1 kv.2 = some cv ∧
          (modelGetFields meta d).lookup kv.1 = some (serializeFieldValue kv.1 cv)) ∧
      ∃ d2, modelInit meta (modelGetFields meta d) = some d2 ∧
        modelGetFields meta d2 = modelGetFields meta d := by
  have htot : ∀ kv ∈ fields, ∃ cv, coerceField meta kv.1 kv.2 = some cv := by
    intro kv hkv
    obtain ⟨cv, hcv, _⟩ := coerce_serialize_stable meta kv.1 kv.2 (hcoh kv hkv)
    exact ⟨cv, hcv⟩
  obtain ⟨cf, hcf⟩ := coerceFields_total meta fields htot
  have hf2 := coerceFields_forall2 meta fields cf hcf
  have hndcf : (cf.map Prod.fst).Nodup := by
    rw [forall2_coerced_keys meta fields cf hf2]
    exact hnd
  have hinit : modelInit meta fields = some cf := by
    simp only [modelInit, modelUpdate, hcf, Option.map_some']
    rw [dictMerge_nil cf hndcf]
  refine ⟨cf, hinit, ?_, ?_⟩
  · intro kv hkv hw
    obtain ⟨cv, hcv⟩ := htot kv hkv
    obtain ⟨⟨y1, y2⟩, hy, hR⟩ := forall2_mem hf2 kv hkv
    have h2 : y2 = cv := Option.some.inj (hR.2.symm.trans hcv)
    have hmemc : (kv.1, cv) ∈ cf := by
      rw [← hR.1, ← h2]
      exact hy
    exact ⟨cv, hcv, lookup_getFields_of_mem meta cf hndcf kv.1 cv hmemc hw⟩
  · have hstable : ∀ kv ∈ modelGetFields meta cf,
        modelIsFieldWritable meta kv.1 PyVal.none = true ∧
        (∃ cv, coerceField meta kv.1 kv.2 = some cv) ∧
        ∀ cv2, coerceField meta kv.1 kv.2 = some cv2 →
          serializeFieldValue kv.1 cv2 = kv.2 := by
      intro kv hkv
      obtain ⟨v, hvmem, hw, hser⟩ := getFields_mem meta cf kv hkv
      obtain ⟨x, hx, hxR⟩ := forall2_mem_rev hf2 (kv.1, v) hvmem
      have hk : kv.1 = x.1 := hxR.1
      obtain ⟨scv, hscv1, scv2, hscv2, hscv3⟩ :=
        coerce_serialize_stable meta x.1 x.2 (hcoh x hx)
      have hv : scv = v := Option.some.inj (hscv1.symm.trans hxR.2)
      subst hv
      refine ⟨hw, ⟨scv2, ?_⟩, ?_⟩
      · rw [hser, hk]
        exact hscv2
      · intro cv2 hcv2
        have heq : coerceField meta x.1 (serializeFieldValue x.1 scv) = some cv2 := by
          rw [hser, hk] at hcv2
          exact hcv2
        have hcv2e : cv2 = scv2 := Option.some.inj (heq.symm.trans hscv2)
        subst hcv2e
        rw [hser, hk]
        exact hscv3
    have htot2 : ∀ kv ∈ modelGetFields meta cf, ∃ cv, coerceField meta kv.1 kv.2 = some cv :=
      fun kv hkv => (hstable kv hkv).2.1
    obtain ⟨cf2, hcf2⟩ := coerceFields_total meta (modelGetFields meta cf) htot2
    have hf22 := coerceFields_forall2 meta (modelGetFields meta cf) cf2 hcf2
    have hndout : ((modelGetFields meta cf).map Prod.fst).Nodup :=
      List.Nodup.sublist (getFields_keys_sublist meta cf) hndcf
    have hndcf2 : (cf2.map Prod.fst).Nodup := by
      rw [forall2_coerced_keys meta _ cf2 hf22]
      exact hndout
    refine ⟨cf2, ?_, ?_⟩
    · simp only [modelInit, modelUpdate, hcf2, Option.map_some']
      show some (dictMerge [] cf2) = some cf2
      rw [dictMerge_nil cf2 hndcf2]
    · exact getFields_of_stable meta (modelGetFields meta cf) cf2 hf22
        (fun kv hkv => ⟨(hstable kv hkv).1, (hstable kv hkv).2.2⟩)


/-- **C7** (counterexample): the round trip is *not* idempotent for every
field dictionary.  A `datetime.date` object stored under an `_at`-named
field serializes to `"2023-01-02"`; reconstructing coerces that string
with `parse(value)` into a *datetime*, which then serializes to
`"2023-01-02T00:00:00"` — the second round trip changes the value
again. -/
theorem c7_second_roundtrip_changes_counterexample :
    modelInit subjectMeta [("seen_at", PyVal.date ⟨2023, 1, 2⟩)] =
      some [("seen_at", PyVal.date ⟨2023, 1, 2⟩)] ∧
    modelGetFields subjectMeta [("seen_at", PyVal.date ⟨2023, 1, 2⟩)] =
      [("seen_at", PyVal.str "2023-01-02")] ∧
    modelInit subjectMeta [("seen_at", PyVal.str "2023-01-02")] =
      some [("seen_at", PyVal.dtime ⟨2023, 1, 2, 0, 0, 0⟩)] ∧
    modelGetFields subjectMeta [("seen_at", PyVal.dtime ⟨2023, 1, 2, 0, 0, 0⟩)] =
      [("seen_at", PyVal.str "2023-01-02T00:00:00")] ∧
    ("2023-01-02T00:00:00" : String) ≠ "2023-01-02" :=
  ⟨rfl, rfl, rfl, rfl, by decide⟩

/-- Closed instance of `c7_roundtrip_stable`: an invoice-shaped dictionary
with a decimal-string field and a date-string field. -/
theorem c7_roundtrip_stable_witness :
    ∃ d, modelInit invoiceMeta
        [("exchange_rate", PyVal.str "24.50"), ("issued_on", PyVal.str "2023-01-02")] =
          some d ∧
      (∀ kv ∈ ([("exchange_rate", PyVal.str "24.50"),
          ("issued_on", PyVal.str "2023-01-02")] : Dict),
        modelIsFieldWritable invoiceMeta kv.1 PyVal.none = true →
        ∃ cv, coerceField invoiceMeta kv.1 kv.2 = some cv ∧
          (modelGetFields invoiceMeta d).lookup kv.1 =
            some (serializeFieldValue kv.1 cv)) ∧
      ∃ d2, modelInit invoiceMeta (modelGetFields invoiceMeta d) = some d2 ∧
        modelGetFields invoiceMeta d2 = modelGetFields invoiceMeta d := by
  apply c7_roundtrip_stable invoiceMeta _ (by decide)
  intro kv hkv
  rcases List.mem_cons.mp hkv with he | hkv2
  · subst he
    unfold coherent
    rw [if_neg (by decide), if_neg (by decide), if_pos (by decide)]
    exact Or.inr ⟨⟨false, [2, 4], [5, 0]⟩, rfl⟩
  · rcases List.mem_cons.mp hkv2 with he | hkv3
    · subst he
      unfold coherent
      rw [if_neg (by decide), if_pos (by decide)]
      exact Or.inr ⟨⟨2023, 1, 2, 0, 0, 0⟩, rfl⟩
    · cases hkv3

end Fakturoid
